import Mathlib

/-!
Verification of the Senate Lobbying Disclosure API client (`lda_api.py`).

The development shallowly embeds the pagination-aware fetch engine and the
record-flattening / normalization pipeline of the client:

* `JVal` models Python/JSON values (dicts are insertion-ordered association
  lists, as Python guarantees).
* `dinsert` / `pyUpdate` model Python dict assignment and `dict.update`.
* `dumps` / `parseJson` model `json.dumps(..., ensure_ascii=False)` and a
  standard JSON parser (both are external library behavior, modelled here).
* `flatten_record`, `write_csv`, `unique`, `normalize_text`,
  `format_address`, `simplified_row` embed the module-level helpers.
* `buildFilingsFilters`, `list_filings`, `list_all_filings`, `request`
  embed the `LDAClient` methods, with the HTTP transport abstracted as an
  oracle so that request counts are observable.
-/

/-- A Python/JSON value as handled by the client: `None`, booleans, integers,
strings, lists, and insertion-ordered dicts with string keys. -/
inductive JVal where
  | null : JVal
  | bool (b : Bool) : JVal
  | num (n : Int) : JVal
  | str (s : String) : JVal
  | arr (xs : List JVal) : JVal
  | obj (kvs : List (String × JVal)) : JVal

/-- Structural induction principle for `JVal` that exposes the membership
induction hypotheses for the nested lists. -/
def JVal.myInduction (P : JVal → Prop)
    (hnull : P .null) (hbool : ∀ b, P (.bool b)) (hnum : ∀ n, P (.num n))
    (hstr : ∀ s, P (.str s))
    (harr : ∀ xs, (∀ x, x ∈ xs → P x) → P (.arr xs))
    (hobj : ∀ kvs, (∀ kv, kv ∈ kvs → P kv.2) → P (.obj kvs)) : ∀ v, P v := by
  have key : ∀ n (v : JVal), sizeOf v ≤ n → P v := by
    intro n
    induction n with
    | zero =>
      intro v hv
      exfalso
      cases v <;> simp at hv
    | succ n ih =>
      intro v hv
      cases v with
      | null => exact hnull
      | bool b => exact hbool b
      | num m => exact hnum m
      | str s => exact hstr s
      | arr xs =>
        refine harr xs (fun x hx => ih x ?_)
        have h1 := List.sizeOf_lt_of_mem hx
        simp at hv
        omega
      | obj kvs =>
        refine hobj kvs (fun kv hkv => ih kv.2 ?_)
        have h1 := List.sizeOf_lt_of_mem hkv
        have h2 : sizeOf kv.2 < sizeOf kv := by
          cases kv with
          | mk a b => simp
        simp at hv
        omega
  intro v
  exact key (sizeOf v) v (Nat.le_refl _)

mutual

def JVal.beq : JVal → JVal → Bool
  | .null, .null => true
  | .bool a, .bool b => a == b
  | .num a, .num b => a == b
  | .str a, .str b => a == b
  | .arr xs, .arr ys => JVal.beqList xs ys
  | .obj xs, .obj ys => JVal.beqObj xs ys
  | _, _ => false

def JVal.beqList : List JVal → List JVal → Bool
  | [], [] => true
  | x :: xs, y :: ys => JVal.beq x y && JVal.beqList xs ys
  | _, _ => false

def JVal.beqObj : List (String × JVal) → List (String × JVal) → Bool
  | [], [] => true
  | (k1, v1) :: xs, (k2, v2) :: ys => k1 == k2 && JVal.beq v1 v2 && JVal.beqObj xs ys
  | _, _ => false

end

def JVal.beq_refl : ∀ v : JVal, JVal.beq v v = true := by
  intro v
  induction v using JVal.myInduction with
  | hnull => rfl
  | hbool b => simp [JVal.beq]
  | hnum n => simp [JVal.beq]
  | hstr s => simp [JVal.beq]
  | harr xs ih =>
    rw [JVal.beq]
    induction xs with
    | nil => rfl
    | cons x xs ihl =>
      rw [JVal.beqList]
      rw [ih x (by simp), ihl (fun y hy => ih y (by simp [hy]))]
      rfl
  | hobj kvs ih =>
    rw [JVal.beq]
    induction kvs with
    | nil => rfl
    | cons kv kvs ihl =>
      cases kv with
      | mk k v =>
        rw [JVal.beqObj]
        rw [ih (k, v) (by simp), ihl (fun p hp => ih p (by simp [hp]))]
        simp

def JVal.beq_sound : ∀ a b : JVal, JVal.beq a b = true → a = b := by
  intro a
  induction a using JVal.myInduction with
  | hnull => intro b h; cases b <;> simp [JVal.beq] at h; rfl
  | hbool x => intro b h; cases b <;> simp [JVal.beq] at h; rw [h]
  | hnum x => intro b h; cases b <;> simp [JVal.beq] at h; rw [h]
  | hstr x => intro b h; cases b <;> simp [JVal.beq] at h; rw [h]
  | harr xs ih =>
    intro b h
    cases b with
    | arr ys =>
      congr 1
      rw [JVal.beq] at h
      induction xs generalizing ys with
      | nil => cases ys with
        | nil => rfl
        | cons y ys => simp [JVal.beqList] at h
      | cons x xs ihl =>
        cases ys with
        | nil => simp [JVal.beqList] at h
        | cons y ys =>
          rw [JVal.beqList, Bool.and_eq_true] at h
          rw [ih x (by simp) y h.1, ihl (fun z hz => ih z (by simp [hz])) ys h.2]
    | null => simp [JVal.beq] at h
    | bool _ => simp [JVal.beq] at h
    | num _ => simp [JVal.beq] at h
    | str _ => simp [JVal.beq] at h
    | obj _ => simp [JVal.beq] at h
  | hobj xs ih =>
    intro b h
    cases b with
    | obj ys =>
      congr 1
      rw [JVal.beq] at h
      induction xs generalizing ys with
      | nil => cases ys with
        | nil => rfl
        | cons y ys =>
          cases y
          simp [JVal.beqObj] at h
      | cons x xs ihl =>
        cases ys with
        | nil =>
          cases x
          simp [JVal.beqObj] at h
        | cons y ys =>
          cases x with
          | mk k1 v1 =>
            cases y with
            | mk k2 v2 =>
              rw [JVal.beqObj, Bool.and_eq_true, Bool.and_eq_true] at h
              have hk : k1 = k2 := by
                have := h.1.1
                simpa using this
              have hv : v1 = v2 := ih (k1, v1) (by simp) v2 h.1.2
              rw [hk, hv, ihl (fun z hz => ih z (by simp [hz])) ys h.2]
    | null => simp [JVal.beq] at h
    | bool _ => simp [JVal.beq] at h
    | num _ => simp [JVal.beq] at h
    | str _ => simp [JVal.beq] at h
    | arr _ => simp [JVal.beq] at h

instance : DecidableEq JVal := fun a b =>
  if h : JVal.beq a b = true then .isTrue (JVal.beq_sound a b h)
  else .isFalse (fun e => h (e ▸ JVal.beq_refl a))

instance {e a : Type} [DecidableEq e] [DecidableEq a] : DecidableEq (Except e a) :=
  fun x y =>
    match x, y with
    | .ok u, .ok v =>
      if h : u = v then .isTrue (by rw [h]) else .isFalse (by simp [h])
    | .error u, .error v =>
      if h : u = v then .isTrue (by rw [h]) else .isFalse (by simp [h])
    | .ok _, .error _ => .isFalse (by simp)
    | .error _, .ok _ => .isFalse (by simp)

/-- Python truthiness (`bool(v)`): `None`, `False`, `0`, `""`, `[]` and
an empty dict are falsy, everything else is truthy. -/
def JVal.truthy : JVal → Bool
  | .null => false
  | .bool b => b
  | .num n => n != 0
  | .str s => s != ""
  | .arr xs => !xs.isEmpty
  | .obj kvs => !kvs.isEmpty

/-- `a or b` in Python: the first operand when truthy, otherwise the second. -/
def pyOr (a b : JVal) : JVal := if a.truthy then a else b

/-- Dict assignment `d[k] = v` on an insertion-ordered dict: an existing key
keeps its position and gets the new value, a new key is appended. -/
def dinsert : List (String × JVal) → String → JVal → List (String × JVal)
  | [], k, v => [(k, v)]
  | (k1, v1) :: rest, k, v =>
    if k1 = k then (k1, v) :: rest else (k1, v1) :: dinsert rest k v

/-- `d.update(other)`: assign every pair of `other` into `d`, in order. -/
def pyUpdate (m : List (String × JVal)) (kvs : List (String × JVal)) :
    List (String × JVal) :=
  kvs.foldl (fun acc kv => dinsert acc kv.1 kv.2) m

/-- `d.get(k, default)` on an association-list dict. -/
def dGetD (m : List (String × JVal)) (k : String) (d : JVal) : JVal :=
  (m.lookup k).getD d

/-- `v.get(k, default)` for a `JVal` that holds a dict.  In Python calling
`.get` on a non-dict raises `AttributeError`; theorems that depend on `.get`
carry object-ness hypotheses, the non-dict case returns the default. -/
def JVal.getD (v : JVal) (k : String) (d : JVal) : JVal :=
  match v with
  | .obj kvs => dGetD kvs k d
  | _ => d

/-- The element list of a `JVal` that holds a list.  Iterating a non-list in
Python raises `TypeError`; theorems that iterate carry list-ness hypotheses. -/
def JVal.asArr : JVal → List JVal
  | .arr xs => xs
  | _ => []

def JVal.isObj : JVal → Bool
  | .obj _ => true
  | _ => false

def JVal.isArr : JVal → Bool
  | .arr _ => true
  | _ => false

/-! ### Decimal integers: `str(int)` and digit parsing -/

/-- The decimal digit character for `n < 10`. -/
def digitChar (n : Nat) : Char := Char.ofNat (48 + n)

def digitVal (c : Char) : Nat := c.toNat - 48

/-- Most-significant-first decimal digits of `n`, prepended to `acc`.  The
fuel argument (any bound on the digit count, `n` itself suffices) keeps the
recursion structural so that the kernel can evaluate it. -/
def natCharsAux : Nat → Nat → List Char → List Char
  | 0, _, acc => acc
  | f + 1, n, acc =>
    if n = 0 then acc else natCharsAux f (n / 10) (digitChar (n % 10) :: acc)

/-- Decimal representation of a natural number, as Python's `str` prints it. -/
def natChars (n : Nat) : List Char := if n = 0 then ['0'] else natCharsAux n n []

/-- Decimal representation of an integer, as Python's `str` prints it. -/
def intChars (n : Int) : List Char :=
  if n < 0 then '-' :: natChars (-n).toNat else natChars n.toNat

/-- Greedily split a leading run of decimal digits from the input. -/
def parseDigits : List Char → List Char × List Char
  | [] => ([], [])
  | c :: rest =>
    if c.isDigit then
      let p := parseDigits rest
      (c :: p.1, p.2)
    else ([], c :: rest)

def digitsToNat (ds : List Char) : Nat :=
  ds.foldl (fun acc c => 10 * acc + digitVal c) 0

/-- Parse a nonempty run of decimal digits as a natural number. -/
def parseNum (cs : List Char) : Option (Nat × List Char) :=
  let p := parseDigits cs
  if p.1.isEmpty then none else some (digitsToNat p.1, p.2)

/-- The input does not start with a decimal digit (numbers parse greedily). -/
def headNotDigit : List Char → Prop
  | [] => True
  | c :: _ => c.isDigit = false

/-! ### JSON string escaping, as `json.dumps(..., ensure_ascii=False)` emits it -/
def lbrace : Char := Char.ofNat 123

def rbrace : Char := Char.ofNat 125

def hexChar (n : Nat) : Char := if n < 10 then digitChar n else Char.ofNat (87 + n)

/-- JSON escape of one character: quote and backslash are escaped, control
characters use the short escapes or a `\u00XX` escape, other characters are
emitted verbatim (`ensure_ascii=False`). -/
def escChar (c : Char) : List Char :=
  if c = '"' then ['\\', '"']
  else if c = '\\' then ['\\', '\\']
  else if c = '\n' then ['\\', 'n']
  else if c = '\t' then ['\\', 't']
  else if c = '\r' then ['\\', 'r']
  else if c.toNat = 8 then ['\\', 'b']
  else if c.toNat = 12 then ['\\', 'f']
  else if c.toNat < 32 then
    ['\\', 'u', '0', '0', hexChar (c.toNat / 16), hexChar (c.toNat % 16)]
  else [c]

def escChars : List Char → List Char
  | [] => []
  | c :: cs => escChar c ++ escChars cs

def hexVal? (c : Char) : Option Nat :=
  if 48 ≤ c.toNat && c.toNat ≤ 57 then some (c.toNat - 48)
  else if 97 ≤ c.toNat && c.toNat ≤ 102 then some (c.toNat - 87)
  else if 65 ≤ c.toNat && c.toNat ≤ 70 then some (c.toNat - 55)
  else none

def escDecode (e : Char) : Option Char :=
  if e = '"' then some '"'
  else if e = '\\' then some '\\'
  else if e = '/' then some '/'
  else if e = 'n' then some '\n'
  else if e = 't' then some '\t'
  else if e = 'r' then some '\r'
  else if e = 'b' then some (Char.ofNat 8)
  else if e = 'f' then some (Char.ofNat 12)
  else none

/-- Parse the body of a JSON string literal (after the opening quote) up to
the closing quote, decoding escapes. -/
def parseStrChars : List Char → Option (List Char × List Char)
  | [] => none
  | c :: rest =>
    if c = '"' then some ([], rest)
    else if c = '\\' then
      match rest with
      | [] => none
      | e :: rest2 =>
        if e = 'u' then
          match rest2 with
          | h1 :: h2 :: h3 :: h4 :: rest3 =>
            match hexVal? h1, hexVal? h2, hexVal? h3, hexVal? h4 with
            | some a, some b, some a2, some b2 =>
              let code := ((a * 16 + b) * 16 + a2) * 16 + b2
              if code < 55296 then
                (parseStrChars rest3).map (fun p => (Char.ofNat code :: p.1, p.2))
              else none
            | _, _, _, _ => none
          | _ => none
        else
          match escDecode e with
          | some d => (parseStrChars rest2).map (fun p => (d :: p.1, p.2))
          | none => none
    else (parseStrChars rest).map (fun p => (c :: p.1, p.2))

/-! ### `json.dumps(v, ensure_ascii=False)` with the default separators -/
mutual

def dumpV : JVal → List Char
  | .null => 'n' :: ['u', 'l', 'l']
  | .bool b => if b then 't' :: ['r', 'u', 'e'] else 'f' :: ['a', 'l', 's', 'e']
  | .num n => intChars n
  | .str s => '"' :: escChars s.data ++ ['"']
  | .arr xs => '[' :: dumpElems xs ++ [']']
  | .obj kvs => lbrace :: dumpMembers kvs ++ [rbrace]

def dumpElems : List JVal → List Char
  | [] => []
  | [x] => dumpV x
  | x :: y :: tl => dumpV x ++ ',' :: ' ' :: dumpElems (y :: tl)

def dumpMembers : List (String × JVal) → List Char
  | [] => []
  | [kv] => '"' :: escChars kv.1.data ++ '"' :: ':' :: ' ' :: dumpV kv.2
  | kv :: m :: tl =>
    ('"' :: escChars kv.1.data ++ '"' :: ':' :: ' ' :: dumpV kv.2) ++
      ',' :: ' ' :: dumpMembers (m :: tl)

end

/-- `json.dumps(v, ensure_ascii=False)`. -/
def dumps (v : JVal) : String := String.mk (dumpV v)

/-! ### Python `repr` / `str` of values, as used by `str(...)` and f-strings.
`repr` escaping inside string literals is elided (no claim evaluates `str()`
on a container holding special characters). -/
mutual

def pyRepr : JVal → List Char
  | .null => ['N', 'o', 'n', 'e']
  | .bool true => ['T', 'r', 'u', 'e']
  | .bool false => ['F', 'a', 'l', 's', 'e']
  | .num n => intChars n
  | .str s => '\'' :: s.data ++ ['\'']
  | .arr xs => '[' :: pyReprElems xs ++ [']']
  | .obj kvs => lbrace :: pyReprMembers kvs ++ [rbrace]

def pyReprElems : List JVal → List Char
  | [] => []
  | [x] => pyRepr x
  | x :: y :: tl => pyRepr x ++ ',' :: ' ' :: pyReprElems (y :: tl)

def pyReprMembers : List (String × JVal) → List Char
  | [] => []
  | [kv] => '\'' :: kv.1.data ++ '\'' :: ':' :: ' ' :: pyRepr kv.2
  | kv :: m :: tl =>
    ('\'' :: kv.1.data ++ '\'' :: ':' :: ' ' :: pyRepr kv.2) ++
      ',' :: ' ' :: pyReprMembers (m :: tl)

end

/-- Python `str(v)`: strings print themselves, every other value prints as
its `repr`. -/
def pyStr : JVal → String
  | .str s => s
  | v => String.mk (pyRepr v)

/-! ### Node count of a value, the fuel measure for the JSON parser -/
mutual

def jnodes : JVal → Nat
  | .arr xs => jnodesList xs + 1
  | .obj kvs => jnodesObj kvs + 1
  | _ => 1

def jnodesList : List JVal → Nat
  | [] => 0
  | x :: xs => jnodes x + jnodesList xs + 1

def jnodesObj : List (String × JVal) → Nat
  | [] => 0
  | kv :: kvs => jnodes kv.2 + jnodesObj kvs + 1

end

/-! ### A JSON parser (recursive descent, fuel-indexed) -/

/-- Skip a single optional space (the separators `", "` and `": "`). -/
def skipSpace1 : List Char → List Char
  | ' ' :: r => r
  | cs => cs

mutual

def parseV : Nat → List Char → Option (JVal × List Char)
  | 0, _ => none
  | fuel + 1, cs =>
    match cs with
    | [] => none
    | c :: rest =>
      if c = 'n' then
        match rest with
        | 'u' :: 'l' :: 'l' :: r => some (.null, r)
        | _ => none
      else if c = 't' then
        match rest with
        | 'r' :: 'u' :: 'e' :: r => some (.bool true, r)
        | _ => none
      else if c = 'f' then
        match rest with
        | 'a' :: 'l' :: 's' :: 'e' :: r => some (.bool false, r)
        | _ => none
      else if c = '"' then
        (parseStrChars rest).map (fun p => (.str (String.mk p.1), p.2))
      else if c = '[' then
        match rest with
        | [] => none
        | c2 :: r =>
          if c2 = ']' then some (.arr [], r)
          else (parseElems fuel (c2 :: r)).map (fun p => (.arr p.1, p.2))
      else if c = lbrace then
        match rest with
        | [] => none
        | c2 :: r =>
          if c2 = rbrace then some (.obj [], r)
          else (parseMembers fuel (c2 :: r)).map (fun p => (.obj p.1, p.2))
      else if c = '-' then
        match parseNum rest with
        | some (n, r) => some (.num (-(n : Int)), r)
        | none => none
      else if c.isDigit then
        match parseNum (c :: rest) with
        | some (n, r) => some (.num ((n : Int)), r)
        | none => none
      else none

def parseElems : Nat → List Char → Option (List JVal × List Char)
  | 0, _ => none
  | fuel + 1, cs =>
    match parseV fuel cs with
    | none => none
    | some (v, r) =>
      match r with
      | ']' :: r2 => some ([v], r2)
      | ',' :: r2 => (parseElems fuel (skipSpace1 r2)).map (fun p => (v :: p.1, p.2))
      | _ => none

def parseMembers : Nat → List Char → Option (List (String × JVal) × List Char)
  | 0, _ => none
  | fuel + 1, cs =>
    match cs with
    | [] => none
    | c :: rest =>
      if c = '"' then
        match parseStrChars rest with
        | none => none
        | some (k, r) =>
          match r with
          | ':' :: r2 =>
            match parseV fuel (skipSpace1 r2) with
            | none => none
            | some (v, r4) =>
              match r4 with
              | [] => none
              | c2 :: r5 =>
                if c2 = rbrace then some ([(String.mk k, v)], r5)
                else if c2 = ',' then
                  (parseMembers fuel (skipSpace1 r5)).map
                    (fun p => ((String.mk k, v) :: p.1, p.2))
                else none
          | _ => none
      else none

end

/-- Parse a JSON document (the whole input must be consumed). -/
def parseJson (s : String) : Option JVal :=
  match parseV (s.data.length + 1) s.data with
  | some (v, []) => some v
  | _ => none

/-! ### `_flatten_record` -/

/-- The loop of `_flatten_record`: walk the record in order, recursing into
nested dicts with the dotted path, JSON-encoding list values, and assigning
scalars as-is into the accumulated `items` dict.  The fuel argument (any
bound on the nesting size, `sizeOf record` suffices) keeps the recursion
structural so that the kernel can evaluate it. -/
def flattenGo : Nat → List (String × JVal) → String → String →
    List (String × JVal) → List (String × JVal)
  | 0, _, _, _, items => items
  | _ + 1, [], _, _, items => items
  | f + 1, (k, v) :: rest, pre, sep, items =>
    let newKey := if pre = "" then k else pre ++ sep ++ k
    match v with
    | .obj sub =>
      flattenGo f rest pre sep (pyUpdate items (flattenGo f sub newKey sep []))
    | .arr xs => flattenGo f rest pre sep (dinsert items newKey (.str (dumps (.arr xs))))
    | other => flattenGo f rest pre sep (dinsert items newKey other)

/-- `_flatten_record(record, prefix="", sep=".")`.  The fuel `jnodesObj
record` is large enough for the loop to run to completion
(`flattenGo_fuel_enough` below). -/
def flatten_record (record : List (String × JVal)) : List (String × JVal) :=
  flattenGo (jnodesObj record) record ("") (".") []

/-! ### `_unique`, `_normalize_text`, `_format_address` -/

/-- `_unique` over Python strings (the falsy check `not value` is `v = ""`). -/
def uniqueStrGo : List String → List String → List String → List String
  | _, ordered, [] => ordered
  | seen, ordered, v :: vs =>
    if v = "" then uniqueStrGo seen ordered vs
    else if v ∈ seen then uniqueStrGo seen ordered vs
    else uniqueStrGo (v :: seen) (ordered ++ [v]) vs

def uniqueStr (vs : List String) : List String := uniqueStrGo [] [] vs

/-- `_unique` over arbitrary values (`not value` is Python truthiness). -/
def uniqueValGo : List JVal → List JVal → List JVal → List JVal
  | _, ordered, [] => ordered
  | seen, ordered, v :: vs =>
    if v.truthy = false then uniqueValGo seen ordered vs
    else if v ∈ seen then uniqueValGo seen ordered vs
    else uniqueValGo (v :: seen) (ordered ++ [v]) vs

def uniqueVal (vs : List JVal) : List JVal := uniqueValGo [] [] vs

/-- Python `str.split()` whitespace (ASCII part). -/
def pyIsSpace (c : Char) : Bool :=
  c = ' ' || c = '\t' || c = '\n' || c = '\r' || c.toNat = 11 || c.toNat = 12

/-- The loop of `str.split()`: `cur` collects the current word (reversed). -/
def pySplitWsGo : List Char → List Char → List String
  | [], cur => if cur.isEmpty then [] else [String.mk cur.reverse]
  | c :: cs, cur =>
    if pyIsSpace c then
      if cur.isEmpty then pySplitWsGo cs []
      else String.mk cur.reverse :: pySplitWsGo cs []
    else pySplitWsGo cs (c :: cur)

/-- `str.split()` with no arguments: split on whitespace runs, dropping
empty pieces. -/
def pySplitWs (s : String) : List String := pySplitWsGo s.data []

/-- `str.strip()` with no arguments: drop whitespace from both ends. -/
def pyStrip (s : String) : String :=
  String.mk (((s.data.dropWhile pyIsSpace).reverse.dropWhile pyIsSpace).reverse)

/-- `_normalize_text(value)`. -/
def normalize_text (v : JVal) : String :=
  match v with
  | .null => ""
  | v => String.intercalate (" ") (pySplitWs (pyStr v))

/-- `_format_address(parts)`. -/
def format_address (parts : List JVal) : String :=
  String.intercalate (", ")
    (parts.filterMap (fun p =>
      if p.truthy then
        if pyStrip (pyStr p) = "" then none else some (pyStrip (pyStr p))
      else none))

/-! ### `_simplified_row` -/
def SIMPLE_CSV_FIELDS : List String :=
  ["registrant_name", "registrant_address", "registrant_contact",
   "registrant_phone", "senate_id", "client_name", "filing_information",
   "income", "expenses", "expenses_method", "dt_posted", "description",
   "government_entities", "filing_uuid", "filing_document_url"]

/-- `_simplified_row(record)`: the curated 15-column row.  String joins use
`pyStr` where Python requires the joined values to already be strings. -/
def simplified_row (record : List (String × JVal)) : List (String × JVal) :=
  let registrant := pyOr (dGetD record ("registrant") .null) (.obj [])
  let client := pyOr (dGetD record ("client") .null) (.obj [])
  let addr1 := pyOr (dGetD record ("registrant_address_1") .null)
    (registrant.getD ("address_1") .null)
  let addr2 := pyOr (dGetD record ("registrant_address_2") .null)
    (registrant.getD ("address_2") .null)
  let city := pyOr (dGetD record ("registrant_city") .null)
    (registrant.getD ("city") .null)
  let state := pyOr (dGetD record ("registrant_state") .null)
    (pyOr (registrant.getD ("state_display") .null)
      (registrant.getD ("state") .null))
  let postal := pyOr (dGetD record ("registrant_zip") .null)
    (registrant.getD ("zip") .null)
  let country := pyOr (dGetD record ("registrant_country") .null)
    (pyOr (registrant.getD ("country_display") .null)
      (registrant.getD ("country") .null))
  let registrant_address :=
    format_address [addr1, addr2, city, state, postal, country]
  let acts := (dGetD record ("lobbying_activities") (.arr [])).asArr
  let government_entities := uniqueVal
    (acts.flatMap (fun a => ((a.getD ("government_entities") (.arr [])).asArr).map
      (fun e => e.getD ("name") .null)))
  let activity_descriptions := uniqueStr
    (acts.map (fun a => normalize_text (a.getD ("description") .null)))
  let registrant_id := registrant.getD ("id") .null
  let client_legacy_id :=
    pyOr (client.getD ("client_id") .null) (client.getD ("id") .null)
  let senate_id : JVal :=
    if registrant_id.truthy && client_legacy_id.truthy then
      .str (pyStr registrant_id ++ "-" ++ pyStr client_legacy_id)
    else .null
  let filing_information := String.intercalate (" | ")
    ((([.str (pyStr (dGetD record ("filing_year") .null)),
        pyOr (dGetD record ("filing_period_display") .null)
          (dGetD record ("filing_period") .null),
        pyOr (dGetD record ("filing_type_display") .null)
          (dGetD record ("filing_type") .null)] : List JVal).filter
      JVal.truthy).map pyStr)
  [(("registrant_name" : String), registrant.getD ("name") .null),
   ("registrant_address", .str registrant_address),
   ("registrant_contact", registrant.getD ("contact_name") .null),
   ("registrant_phone", registrant.getD ("contact_telephone") .null),
   ("senate_id", senate_id),
   ("client_name", client.getD ("name") .null),
   ("filing_information", .str filing_information),
   ("income", dGetD record ("income") .null),
   ("expenses", dGetD record ("expenses") .null),
   ("expenses_method", pyOr (dGetD record ("expenses_method_display") .null)
     (dGetD record ("expenses_method") .null)),
   ("dt_posted", dGetD record ("dt_posted") .null),
   ("description", .str (String.intercalate ("; ") activity_descriptions)),
   ("government_entities", .str (String.intercalate ("; ")
     (government_entities.map pyStr))),
   ("filing_uuid", dGetD record ("filing_uuid") .null),
   ("filing_document_url", dGetD record ("filing_document_url") .null)]

/-! ### `_write_csv` -/

/-- A CSV cell as `csv.writer` renders a value: `None` becomes the empty
string, strings are written as-is, other values via `str()`. -/
def csvCell : JVal → String
  | .null => ""
  | .str s => s
  | v => pyStr v

/-- `csv.DictWriter._dict_to_list` with the default `extrasaction='raise'`
and `restval=''`: a row key outside `fieldnames` raises `ValueError`, a
missing key is filled with the empty string. -/
def dictToList (fns : List String) (row : List (String × JVal)) :
    Except String (List JVal) :=
  if row.any (fun kv => !(fns.contains kv.1)) then
    .error ("dict contains fields not in fieldnames")
  else .ok (fns.map (fun f => (row.lookup f).getD (.str "")))

def writeCsvRows (fns : List String) :
    List (List (String × JVal)) → Except String (List (List JVal))
  | [] => .ok []
  | row :: rest =>
    match dictToList fns row with
    | .error e => .error e
    | .ok cells =>
      match writeCsvRows fns rest with
      | .error e => .error e
      | .ok rws => .ok (cells :: rws)

/-- Field inference of `_write_csv` when `fieldnames` is absent:
`sorted({key for row in rows for key in row})`. -/
def inferredFields (rows : List (List (String × JVal))) : List String :=
  ((rows.flatMap (fun r => r.map Prod.fst)).eraseDups).mergeSort
    (fun a b => a ≤ b)

/-- `_write_csv(path, rows, fieldnames=...)`: the header row and the rendered
data rows, or the `ValueError` that `csv.DictWriter.writerow` raises on a
key outside the fieldnames. -/
def write_csv (rows : List (List (String × JVal)))
    (fieldnames : Option (List String)) :
    Except String (List String × List (List String)) :=
  let resolved := match fieldnames with
    | some f => f
    | none => inferredFields rows
  match writeCsvRows resolved rows with
  | .error e => .error e
  | .ok rws => .ok (resolved, rws.map (fun r => r.map csvCell))

/-! ### `LDAClient.list_filings` and `LDAClient.list_all_filings` -/

/-- The keyword arguments of `list_filings` / `list_all_filings` other than
`page` (for `list_all_filings`, `page` is loop state). -/
structure FilingsArgs where
  client_id : Option Int
  client_name : Option String
  lobbyist_id : Option Int
  lobbyist_name : Option String
  page_size : Int
  additional_filters : Option (List (String × JVal))

/-- The filter dict assembled by `list_filings` (lines 114-128): `page` and
`page_size` always, each identifying parameter only when provided (names use
truthiness, so an empty string is omitted), and `additional_filters` merged
last via `dict.update` (skipped when falsy, i.e. `None` or empty). -/
def buildFilingsFilters (a : FilingsArgs) (page : Int) : List (String × JVal) :=
  let f : List (String × JVal) :=
    [("page", .num page), ("page_size", .num a.page_size)]
  let f := match a.client_id with
    | some i => dinsert f ("client_id") (.num i)
    | none => f
  let f := match a.client_name with
    | some s => if s = "" then f else dinsert f ("client_name") (.str s)
    | none => f
  let f := match a.lobbyist_id with
    | some i => dinsert f ("lobbyist_id") (.num i)
    | none => f
  let f := match a.lobbyist_name with
    | some s => if s = "" then f else dinsert f ("lobbyist_name") (.str s)
    | none => f
  match a.additional_filters with
  | some extra => if extra.isEmpty then f else pyUpdate f extra
  | none => f

/-- `has_filter`: any of the four identifying keys occurs in the assembled
filter dict. -/
def hasIdentFilter (filters : List (String × JVal)) : Bool :=
  (["client_id", "client_name", "lobbyist_id", "lobbyist_name"] :
    List String).any (fun k => (filters.lookup k).isSome)

/-- `LDAClient.list_filings` with the transport abstracted as `T` (params to
response dict).  Returns the InvalidQuery `ValueError` (raised before any
request) or the response, paired with the number of transport requests. -/
def list_filings (T : List (String × JVal) → List (String × JVal))
    (a : FilingsArgs) (page : Int) :
    Except String (List (String × JVal)) × Nat :=
  let filters := buildFilingsFilters a page
  if page > 1 && !(hasIdentFilter filters) then
    (.error ("The API requires at least one filter when requesting page > 1."), 0)
  else (.ok (T filters), 1)

/-- `all_results.extend(response.get("results", []))`: appending the elements
of a list value; extending by a non-list is a Python `TypeError`, `none`. -/
def pyExtend (acc : List JVal) (v : JVal) : Option (List JVal) :=
  match v with
  | .arr xs => some (acc ++ xs)
  | _ => none

/-- The loop of `LDAClient.list_all_filings`: fetch the current page, snapshot
the first response, extend the accumulator, and stop when `next` is falsy or
the `max_pages` cap is reached (`page >= max_pages` on the just-fetched page).
`fuel` bounds the iterations (the Python loop may diverge against a server
whose `next` never clears); `none` means fuel ran out or a `TypeError` from a
non-list `results`.  The `Nat` counts transport requests; the pacing sleep has
no observable effect and is not modelled. -/
def fetchAllLoop (T : List (String × JVal) → List (String × JVal))
    (a : FilingsArgs) (maxPages : Option Int) :
    Nat → Int → Option (List (String × JVal)) → List JVal → Nat →
    Option (Except String (List (String × JVal)) × Nat)
  | 0, _, _, _, _ => none
  | fuel + 1, page, firstResp0, allResults0, calls0 =>
    match list_filings T a page with
    | (.error e, c) => some (.error e, calls0 + c)
    | (.ok resp, c) =>
      let calls := calls0 + c
      let firstResp := firstResp0.getD resp
      match pyExtend allResults0 (dGetD resp ("results") (.arr [])) with
      | none => none
      | some allResults =>
        let nextPageExists := (dGetD resp ("next") .null).truthy &&
          !(maxPages.elim false (fun m => decide (page ≥ m)))
        if !nextPageExists then
          some (.ok (dinsert (dinsert firstResp ("results")
            (.arr allResults)) ("fetched_pages") (.num page)), calls)
        else fetchAllLoop T a maxPages fuel (page + 1) (some firstResp) allResults calls

/-- `LDAClient.list_all_filings`: run the loop from page 1 with an empty
accumulator. -/
def list_all_filings (T : List (String × JVal) → List (String × JVal))
    (a : FilingsArgs) (maxPages : Option Int) (fuel : Nat) :
    Option (Except String (List (String × JVal)) × Nat) :=
  fetchAllLoop T a maxPages fuel 1 none [] 0

/-! ### `LDAClient._request` -/

/-- Outcome of one underlying `session.get` attempt: a timeout, a non-timeout
network error (propagates unretried), or an HTTP response carrying the status
code, the body text, and the parsed JSON body when the body is valid JSON. -/
inductive GetOutcome where
  | timeout : GetOutcome
  | fail (e : String) : GetOutcome
  | response (status : Nat) (body : String) (json : Option JVal) : GetOutcome

/-- The errors `_request` can raise: the timeout `RuntimeError` carrying the
URL and configured timeout, the HTTP-failure `RuntimeError` carrying status
and body text, a propagated non-timeout network error, and a JSON decode
error from `response.json()`. -/
inductive ReqError where
  | timeoutErr (url : String) (seconds : Int) : ReqError
  | httpErr (status : Nat) (body : String) : ReqError
  | netOther (e : String) : ReqError
  | jsonDecode : ReqError
  deriving DecidableEq

/-- `f"{base_url}/{path.lstrip('/')}"`. -/
def requestUrl (base path : String) : String :=
  base ++ "/" ++ String.mk (path.data.dropWhile (fun c => c = '/'))

/-- The retry loop of `_request`: at most one retry, and only on timeout.
`net n` is the outcome of the `n`-th GET attempt.  Returns the response (or
error) and the number of GET attempts issued. -/
def getLoop (net : Nat → GetOutcome) (url : String) (tmo : Int)
    (attempts : Nat) : Except ReqError (Nat × String × Option JVal) × Nat :=
  let a := attempts + 1
  match net a with
  | .timeout =>
    if a ≥ 2 then (.error (.timeoutErr url tmo), a)
    else getLoop net url tmo a
  | .fail e => (.error (.netOther e), a)
  | .response status body js => (.ok (status, body, js), a)
  termination_by 2 - attempts
  decreasing_by
    rename_i h
    simp at h
    omega

/-- `LDAClient._request(path)`: GET with one timeout retry, then
`raise_for_status()` (which raises exactly for 4xx/5xx) and `response.json()`.
Returns the parsed JSON or the raised error, with the GET attempt count. -/
def request (net : Nat → GetOutcome) (base path : String) (tmo : Int) :
    Except ReqError JVal × Nat :=
  let url := requestUrl base path
  match getLoop net url tmo 0 with
  | (.error e, calls) => (.error e, calls)
  | (.ok (status, body, js), calls) =>
    if 400 ≤ status ∧ status < 600 then (.error (.httpErr status body), calls)
    else
      match js with
      | some j => (.ok j, calls)
      | none => (.error .jsonDecode, calls)

/-! ### Helper: first-occurrence deduplication of a string list -/

/-- First-occurrence deduplication, stated the way the spec describes it:
keep the head, drop its later duplicates, recurse.  (Fuelled so the kernel
can evaluate it; `xs.length` is always enough fuel.) -/
def dedupFirstF : Nat → List String → List String
  | 0, _ => []
  | _ + 1, [] => []
  | f + 1, x :: xs => x :: dedupFirstF f (xs.filter (fun y => y ≠ x))

def dedupFirst (xs : List String) : List String := dedupFirstF xs.length xs

/-! ### Helpers for the pager: page concatenation and a stub transport -/

/-- The concatenation, in page order, of the per-page result lists
`rs start, rs (start+1), ...` over `cnt` pages. -/
def pagesConcat (rs : Int → List JVal) (start : Int) (cnt : Nat) : List JVal :=
  ((List.range cnt).map (fun i => rs (start + Int.ofNat i))).flatten

/-- Concrete witness args for C1: `client_id = 7` supplies the identifying
filter on every page. -/
def c1Args : FilingsArgs :=
  ⟨some 7, none, none, none, 25, none⟩

/-- Concrete per-page results for the C1 witness: page `p` serves `[p]`. -/
def c1rs (p : Int) : List JVal := [.num p]

/-- A four-page response sequence: `next` is truthy on pages 1-3 and null on
page 4. -/
def c1PageResp (p : Int) : List (String × JVal) :=
  [("count", .num 9),
   ("next", if p < 4 then .str "u" else .null),
   ("results", .arr [.num p])]

/-- Stub transport for the C1 witness: dispatch on the `page` filter. -/
def c1Stub (filters : List (String × JVal)) : List (String × JVal) :=
  match filters.lookup ("page") with
  | some (.num p) => c1PageResp p
  | _ => []

/-! ### The flattened key paths of a record -/
mutual

/-- The flattened key paths contributed by a value sitting at dotted path
`pre`: an object contributes its members' paths, anything else the path
itself (mirrors the three branches of `_flatten_record`). -/
def flatPathsV : JVal → String → String → List String
  | .obj sub, pre, sep => flatPathsObj sub pre sep
  | _, pre, _ => [pre]

/-- The flattened key paths of a record under key path `pre`. -/
def flatPathsObj : List (String × JVal) → String → String → List String
  | [], _, _ => []
  | (k, v) :: rest, pre, sep =>
    flatPathsV v (if pre = "" then k else pre ++ sep ++ k) sep ++
      flatPathsObj rest pre sep

end

/-! ## Theorems -/

theorem natCharsAux_zero (f : Nat) (acc : List Char) : natCharsAux f 0 acc = acc := by
  cases f with
  | zero => rfl
  | succ g => rw [natCharsAux, if_pos rfl]

theorem natCharsAux_fuel (n : Nat) : ∀ f g acc, n ≤ f → n ≤ g →
    natCharsAux f n acc = natCharsAux g n acc := by
  induction n using Nat.strong_induction_on with
  | _ n ih =>
    intro f g acc hf hg
    match n, hf, hg with
    | 0, _, _ => rw [natCharsAux_zero, natCharsAux_zero]
    | m + 1, _, _ =>
      match f, g, hf, hg with
      | ff + 1, gg + 1, _, _ =>
        have hd := Nat.div_lt_self (Nat.succ_pos m) (show (1 : Nat) < 10 from by omega)
        rw [natCharsAux, natCharsAux, if_neg (by omega), if_neg (by omega)]
        exact ih ((m + 1) / 10) hd ff gg _ (by omega) (by omega)

theorem natCharsAux_append (n : Nat) :
    ∀ f acc, n ≤ f → natCharsAux f n acc = natCharsAux f n [] ++ acc := by
  induction n using Nat.strong_induction_on with
  | _ n ih =>
    intro f acc hf
    match n, hf with
    | 0, _ => rw [natCharsAux_zero, natCharsAux_zero, List.nil_append]
    | m + 1, _ =>
      match f, hf with
      | ff + 1, _ =>
        have hd := Nat.div_lt_self (Nat.succ_pos m) (show (1 : Nat) < 10 from by omega)
        have e1 : natCharsAux (ff + 1) (m + 1) acc =
            natCharsAux ff ((m + 1) / 10) (digitChar ((m + 1) % 10) :: acc) := by
          rw [natCharsAux, if_neg (by omega)]
        have e2 : natCharsAux (ff + 1) (m + 1) [] =
            natCharsAux ff ((m + 1) / 10) [digitChar ((m + 1) % 10)] := by
          rw [natCharsAux, if_neg (by omega)]
        rw [e1, e2, ih ((m + 1) / 10) hd ff _ (by omega),
          ih ((m + 1) / 10) hd ff [digitChar ((m + 1) % 10)] (by omega)]
        simp

theorem digitVal_digitChar (n : Nat) (h : n < 10) : digitVal (digitChar n) = n := by
  interval_cases n <;> decide

theorem isDigit_digitChar (n : Nat) (h : n < 10) : (digitChar n).isDigit = true := by
  interval_cases n <;> decide

theorem natCharsAux_digits (n : Nat) :
    ∀ f, n ≤ f → ∀ c ∈ natCharsAux f n [], c.isDigit = true := by
  induction n using Nat.strong_induction_on with
  | _ n ih =>
    intro f hf c hc
    match n, hf with
    | 0, _ =>
      rw [natCharsAux_zero] at hc
      simp at hc
    | m + 1, _ =>
      match f, hf with
      | ff + 1, _ =>
        have hd := Nat.div_lt_self (Nat.succ_pos m) (show (1 : Nat) < 10 from by omega)
        rw [natCharsAux, if_neg (by omega),
          natCharsAux_append _ _ _ (by omega)] at hc
        rcases List.mem_append.mp hc with h1 | h1
        · exact ih _ hd ff (by omega) c h1
        · have : c = digitChar ((m + 1) % 10) := by simpa using h1
          rw [this]
          exact isDigit_digitChar _ (Nat.mod_lt _ (by omega))

theorem natChars_digits (n : Nat) : ∀ c ∈ natChars n, c.isDigit = true := by
  intro c hc
  rw [natChars] at hc
  by_cases h : n = 0
  · rw [if_pos h] at hc
    have : c = '0' := by simpa using hc
    rw [this]; decide
  · rw [if_neg h] at hc
    exact natCharsAux_digits n n (Nat.le_refl n) c hc

theorem natChars_ne_nil (n : Nat) : natChars n ≠ [] := by
  rw [natChars]
  by_cases h : n = 0
  · simp [h]
  · rw [if_neg h]
    match n, h with
    | m + 1, _ =>
      have hd := Nat.div_lt_self (Nat.succ_pos m) (show (1 : Nat) < 10 from by omega)
      rw [natCharsAux, if_neg (by omega), natCharsAux_append _ _ _ (by omega)]
      simp

theorem digitsToNat_append_single (ds : List Char) (c : Char) :
    digitsToNat (ds ++ [c]) = 10 * digitsToNat ds + digitVal c := by
  rw [digitsToNat, digitsToNat, List.foldl_append]
  simp

theorem digitsToNat_natChars (n : Nat) : digitsToNat (natChars n) = n := by
  induction n using Nat.strong_induction_on with
  | _ n ih =>
    match n with
    | 0 => decide
    | m + 1 =>
      have hd := Nat.div_lt_self (Nat.succ_pos m) (show (1 : Nat) < 10 from by omega)
      rw [natChars, if_neg (by omega), natCharsAux, if_neg (by omega),
        natCharsAux_append _ _ _ (by omega)]
      by_cases h : (m + 1) / 10 = 0
      · rw [h, natCharsAux_zero, List.nil_append]
        have hm : m + 1 < 10 := by omega
        have : digitsToNat [digitChar ((m + 1) % 10)] =
            digitVal (digitChar ((m + 1) % 10)) := by
          simp [digitsToNat]
        rw [this, digitVal_digitChar _ (Nat.mod_lt _ (by omega))]
        omega
      · have hrec : natCharsAux m ((m + 1) / 10) [] = natChars ((m + 1) / 10) := by
          rw [natChars, if_neg h]
          exact natCharsAux_fuel _ _ _ _ (by omega) (Nat.le_refl _)
        rw [hrec, digitsToNat_append_single, ih _ hd,
          digitVal_digitChar _ (Nat.mod_lt _ (by omega))]
        omega

theorem parseDigits_split (ds : List Char) (rest : List Char)
    (hds : ∀ c ∈ ds, c.isDigit = true) (hrest : headNotDigit rest) :
    parseDigits (ds ++ rest) = (ds, rest) := by
  induction ds with
  | nil =>
    match rest with
    | [] => rfl
    | c :: tl =>
      rw [List.nil_append, parseDigits]
      rw [headNotDigit] at hrest
      simp [hrest]
  | cons c tl ih =>
    rw [List.cons_append, parseDigits, if_pos (hds c (by simp)),
      ih (fun x hx => hds x (by simp [hx]))]

theorem parseNum_natChars (n : Nat) (rest : List Char) (hrest : headNotDigit rest) :
    parseNum (natChars n ++ rest) = some (n, rest) := by
  rw [parseNum, parseDigits_split (natChars n) rest (natChars_digits n) hrest]
  have : (natChars n).isEmpty = false := by
    cases h : natChars n with
    | nil => exact absurd h (natChars_ne_nil n)
    | cons a b => rfl
  simp only [this]
  rw [digitsToNat_natChars]
  rfl

theorem hexVal_hexChar (n : Nat) (h : n < 16) : hexVal? (hexChar n) = some n := by
  interval_cases n <;> decide

theorem parseStrChars_u_step (t : Nat) (ht : t < 32) (tl : List Char) :
    parseStrChars
        ('\\' :: 'u' :: '0' :: '0' :: hexChar (t / 16) :: hexChar (t % 16) :: tl) =
      (parseStrChars tl).map (fun p => (Char.ofNat t :: p.1, p.2)) := by
  have hhi : t / 16 < 16 := by omega
  have hlo : t % 16 < 16 := by omega
  have hdm := Nat.div_add_mod t 16
  rw [parseStrChars.eq_def]
  simp only [if_neg (show ¬('\\' = '"') from by decide),
    if_pos (show ('\\' : Char) = '\\' from rfl),
    if_pos (show ('u' : Char) = 'u' from rfl)]
  rw [show hexVal? ('0') = some 0 from by decide,
    hexVal_hexChar _ hhi, hexVal_hexChar _ hlo]
  simp only [if_true]
  rw [show ((0 * 16 + 0) * 16 + t / 16) * 16 + t % 16 = t from by omega]
  rw [if_pos (show t < 55296 from by omega)]

theorem parseStrChars_escape (s : List Char) (rest : List Char) :
    parseStrChars (escChars s ++ '"' :: rest) = some (s, rest) := by
  induction s with
  | nil =>
    rw [escChars, List.nil_append, parseStrChars.eq_def]
    simp
  | cons c cs ih =>
    rw [escChars, List.append_assoc, escChar]
    by_cases h1 : c = '"'
    · rw [if_pos h1]
      subst h1
      rw [List.cons_append, List.cons_append, List.nil_append, parseStrChars.eq_def]
      simp [escDecode, ih]
    · rw [if_neg h1]
      by_cases h2 : c = '\\'
      · rw [if_pos h2]
        subst h2
        rw [List.cons_append, List.cons_append, List.nil_append, parseStrChars.eq_def]
        simp [escDecode, ih]
      · rw [if_neg h2]
        by_cases h3 : c = '\n'
        · rw [if_pos h3]
          subst h3
          rw [List.cons_append, List.cons_append, List.nil_append, parseStrChars.eq_def]
          simp [escDecode, ih]
        · rw [if_neg h3]
          by_cases h4 : c = '\t'
          · rw [if_pos h4]
            subst h4
            rw [List.cons_append, List.cons_append, List.nil_append,
              parseStrChars.eq_def]
            simp [escDecode, ih]
          · rw [if_neg h4]
            by_cases h5 : c = '\r'
            · rw [if_pos h5]
              subst h5
              rw [List.cons_append, List.cons_append, List.nil_append,
                parseStrChars.eq_def]
              simp [escDecode, ih]
            · rw [if_neg h5]
              by_cases h6 : c.toNat = 8
              · rw [if_pos h6]
                have hc : c = Char.ofNat 8 := by
                  rw [← h6, Char.ofNat_toNat]
                rw [List.cons_append, List.cons_append, List.nil_append,
                  parseStrChars.eq_def]
                simp [escDecode, ih, hc]
              · rw [if_neg h6]
                by_cases h7 : c.toNat = 12
                · rw [if_pos h7]
                  have hc : c = Char.ofNat 12 := by
                    rw [← h7, Char.ofNat_toNat]
                  rw [List.cons_append, List.cons_append, List.nil_append,
                    parseStrChars.eq_def]
                  simp [escDecode, ih, hc]
                · rw [if_neg h7]
                  by_cases h8 : c.toNat < 32
                  · rw [if_pos h8]
                    simp only [List.cons_append, List.nil_append]
                    rw [parseStrChars_u_step (c.toNat) h8, ih]
                    simp [Char.ofNat_toNat]
                  · rw [if_neg h8]
                    simp only [List.cons_append, List.nil_append]
                    rw [parseStrChars.eq_def]
                    simp [h1, h2, ih]

theorem string_mk_data (s : String) : String.mk s.data = s := by
  cases s
  rfl

theorem natChars_head_digit (n : Nat) :
    ∃ c t, natChars n = c :: t ∧ c.isDigit = true := by
  cases h : natChars n with
  | nil => exact absurd h (natChars_ne_nil n)
  | cons c t =>
    refine ⟨c, t, rfl, ?_⟩
    have := natChars_digits n c (by rw [h]; simp)
    exact this

/-- The serialization of a value is nonempty and never starts with `]`. -/
theorem dumpV_head (v : JVal) : ∃ c t, dumpV v = c :: t ∧ (c = ']') = False := by
  cases v with
  | null => exact ⟨'n', _, rfl, by simp⟩
  | bool b => cases b with
    | true => exact ⟨'t', _, rfl, by simp⟩
    | false => exact ⟨'f', _, rfl, by simp⟩
  | num n =>
    rw [dumpV, intChars]
    by_cases h : n < 0
    · rw [if_pos h]
      exact ⟨'-', _, rfl, by simp⟩
    · rw [if_neg h]
      obtain ⟨c, t, hc, hd⟩ := natChars_head_digit n.toNat
      refine ⟨c, t, hc, ?_⟩
      simp only [eq_iff_iff, iff_false]
      intro he
      rw [he] at hd
      exact absurd hd (by decide)
  | str s => exact ⟨'"', _, rfl, by simp⟩
  | arr xs => exact ⟨'[', _, rfl, by simp⟩
  | obj kvs =>
    refine ⟨lbrace, _, rfl, ?_⟩
    simp only [eq_iff_iff, iff_false]
    decide

theorem headNotDigit_of (c : Char) (h : c.isDigit = false) (tl : List Char) :
    headNotDigit (c :: tl) := h

theorem dumpElems_head (x : JVal) (tl : List JVal) :
    ∃ c t, dumpElems (x :: tl) = c :: t ∧ (c = ']') = False := by
  obtain ⟨c, t, hct, hc⟩ := dumpV_head x
  cases tl with
  | nil => exact ⟨c, t, by rw [dumpElems, hct], hc⟩
  | cons y tl2 =>
    refine ⟨c, t ++ ',' :: ' ' :: dumpElems (y :: tl2), ?_, hc⟩
    rw [dumpElems, hct]
    simp

theorem dumpMembers_head (kv : String × JVal) (tl : List (String × JVal)) :
    ∃ t, dumpMembers (kv :: tl) = '"' :: t := by
  cases tl with
  | nil =>
    refine ⟨escChars kv.1.data ++ '"' :: ':' :: ' ' :: dumpV kv.2, ?_⟩
    rw [dumpMembers]
    simp
  | cons m tl2 =>
    refine ⟨(escChars kv.1.data ++ '"' :: ':' :: ' ' :: dumpV kv.2) ++
      ',' :: ' ' :: dumpMembers (m :: tl2), ?_⟩
    rw [dumpMembers]
    simp

theorem parseElems_dumpElems (xs : List JVal)
    (hIH : ∀ x ∈ xs, ∀ fuel rest, jnodes x ≤ fuel → headNotDigit rest →
      parseV fuel (dumpV x ++ rest) = some (x, rest)) :
    ∀ fuel rest, xs ≠ [] → jnodesList xs ≤ fuel →
      parseElems fuel (dumpElems xs ++ ']' :: rest) = some (xs, rest) := by
  induction xs with
  | nil => intro fuel rest h _; exact absurd rfl h
  | cons x tl ih =>
    intro fuel rest _ hfuel
    rw [jnodesList] at hfuel
    have hx := hIH x (by simp)
    cases fuel with
    | zero => omega
    | succ f =>
      cases tl with
      | nil =>
        rw [dumpElems, parseElems,
          hx f (']' :: rest) (by rw [jnodesList] at hfuel; omega)
            (headNotDigit_of _ (by decide) _)]
        rfl
      | cons y tl2 =>
        rw [dumpElems, List.append_assoc, List.cons_append, List.cons_append,
          parseElems,
          hx f (',' :: ' ' :: (dumpElems (y :: tl2) ++ ']' :: rest))
            (by omega) (headNotDigit_of _ (by decide) _)]
        have hrec := ih (fun z hz => hIH z (by simp [hz])) f rest (by simp)
          (by rw [jnodesList] at hfuel ⊢; omega)
        simp only [skipSpace1, hrec]
        rfl

theorem parseMembers_dumpMembers (kvs : List (String × JVal))
    (hIH : ∀ kv ∈ kvs, ∀ fuel rest, jnodes kv.2 ≤ fuel → headNotDigit rest →
      parseV fuel (dumpV kv.2 ++ rest) = some (kv.2, rest)) :
    ∀ fuel rest, kvs ≠ [] → jnodesObj kvs ≤ fuel →
      parseMembers fuel (dumpMembers kvs ++ rbrace :: rest) = some (kvs, rest) := by
  induction kvs with
  | nil => intro fuel rest h _; exact absurd rfl h
  | cons kv tl ih =>
    intro fuel rest _ hfuel
    rw [jnodesObj] at hfuel
    have hx := hIH kv (by simp)
    cases fuel with
    | zero => omega
    | succ f =>
      cases tl with
      | nil =>
        rw [dumpMembers, parseMembers.eq_def]
        simp only [List.cons_append, List.append_assoc, List.cons_append, if_true]
        rw [parseStrChars_escape]
        simp only [skipSpace1]
        rw [hx f (rbrace :: rest) (by rw [jnodesObj] at hfuel; omega)
          (headNotDigit_of _ (by decide) _)]
        simp [string_mk_data]
      | cons m tl2 =>
        rw [dumpMembers, parseMembers.eq_def]
        simp only [List.cons_append, List.append_assoc, List.cons_append, if_true]
        rw [parseStrChars_escape]
        simp only [skipSpace1]
        rw [hx f (',' :: ' ' :: (dumpMembers (m :: tl2) ++ rbrace :: rest))
          (by omega) (headNotDigit_of _ (by decide) _)]
        have hcomma : ((',' : Char) = rbrace) = False := by
          simp only [eq_iff_iff, iff_false]
          decide
        have hrec := ih (fun z hz => hIH z (by simp [hz])) f rest (by simp)
          (by rw [jnodesObj] at hfuel ⊢; omega)
        simp only [hcomma, if_false, if_true, eq_self_iff_true, skipSpace1, hrec]
        simp [string_mk_data]

theorem digit_not_special (c : Char) (h : c.isDigit = true) :
    (c = 'n') = False ∧ (c = 't') = False ∧ (c = 'f') = False ∧ (c = '"') = False ∧
    (c = '[') = False ∧ (c = lbrace) = False ∧ (c = '-') = False := by
  refine ⟨?_, ?_, ?_, ?_, ?_, ?_, ?_⟩ <;>
    · apply eq_false
      intro he
      rw [he] at h
      revert h
      decide

theorem parseV_dumpV :
    ∀ v : JVal, ∀ fuel rest, jnodes v ≤ fuel → headNotDigit rest →
      parseV fuel (dumpV v ++ rest) = some (v, rest) := by
  intro v
  induction v using JVal.myInduction with
  | hnull =>
    intro fuel rest hf hr
    cases fuel with
    | zero => simp [jnodes] at hf
    | succ f =>
      rw [dumpV]
      simp [parseV]
  | hbool b =>
    intro fuel rest hf hr
    cases fuel with
    | zero => simp [jnodes] at hf
    | succ f =>
      cases b with
      | true =>
        rw [dumpV]
        simp [parseV]
      | false =>
        rw [dumpV]
        simp [parseV]
  | hnum n =>
    intro fuel rest hf hr
    cases fuel with
    | zero => simp [jnodes] at hf
    | succ f =>
      rw [dumpV, intChars]
      by_cases hn : n < 0
      · rw [if_pos hn, List.cons_append]
        simp only [parseV, if_true,
          eq_false (show ¬(('-' : Char) = lbrace) from by decide), if_false]
        rw [parseNum_natChars _ _ hr]
        have hval : -(((-n).toNat : Nat) : Int) = n := by omega
        show some (JVal.num (-(((-n).toNat : Nat) : Int)), rest) =
          some (JVal.num n, rest)
        rw [hval]
      · rw [if_neg hn]
        obtain ⟨c, t, hct, hcd⟩ := natChars_head_digit n.toNat
        rw [hct, List.cons_append]
        obtain ⟨e1, e2, e3, e4, e5, e6, e7⟩ := digit_not_special c hcd
        simp only [parseV, e1, e2, e3, e4, e5, e6, e7, if_false, hcd, if_true]
        rw [← List.cons_append, ← hct, parseNum_natChars _ _ hr]
        have hval : ((n.toNat : Nat) : Int) = n := by omega
        simp [hval]
  | hstr s =>
    intro fuel rest hf hr
    cases fuel with
    | zero => simp [jnodes] at hf
    | succ f =>
      rw [dumpV]
      simp only [List.cons_append, List.append_assoc, List.singleton_append]
      simp only [parseV, if_true]
      rw [parseStrChars_escape]
      simp [string_mk_data]
  | harr xs ih =>
    intro fuel rest hf hr
    cases fuel with
    | zero => simp [jnodes] at hf
    | succ f =>
      cases xs with
      | nil =>
        rw [dumpV, dumpElems]
        simp [parseV]
      | cons x tl =>
        obtain ⟨c2, t2, hE, hc2⟩ := dumpElems_head x tl
        rw [dumpV, hE]
        simp only [List.cons_append, List.append_assoc, List.singleton_append]
        simp only [parseV, if_true, List.nil_append, hc2, if_false]
        rw [show c2 :: (t2 ++ ']' :: rest) = dumpElems (x :: tl) ++ ']' :: rest from by
          rw [hE]; simp]
        rw [parseElems_dumpElems (x :: tl) ih f rest (by simp)
          (by rw [jnodes] at hf; omega)]
        rfl
  | hobj kvs ih =>
    intro fuel rest hf hr
    cases fuel with
    | zero => simp [jnodes] at hf
    | succ f =>
      cases kvs with
      | nil =>
        rw [dumpV, dumpMembers]
        simp only [List.nil_append, List.cons_append, List.singleton_append]
        simp only [parseV, if_true,
          eq_false (show ¬(lbrace = 'n') from by decide),
          eq_false (show ¬(lbrace = 't') from by decide),
          eq_false (show ¬(lbrace = 'f') from by decide),
          eq_false (show ¬(lbrace = '"') from by decide),
          eq_false (show ¬(lbrace = '[') from by decide), if_false]
      | cons kv tl =>
        obtain ⟨t2, hM⟩ := dumpMembers_head kv tl
        have hqr : (('"' : Char) = rbrace) = False := eq_false (by decide)
        rw [dumpV, hM]
        simp only [List.cons_append, List.append_assoc, List.singleton_append]
        simp only [parseV, if_true, List.nil_append, hqr, if_false]
        rw [show '"' :: (t2 ++ rbrace :: rest) = dumpMembers (kv :: tl) ++ rbrace :: rest
          from by rw [hM]; simp]
        rw [parseMembers_dumpMembers (kv :: tl) ih f rest (by simp)
          (by rw [jnodes] at hf; omega)]
        rfl

theorem jnodesList_le (xs : List JVal)
    (h : ∀ x ∈ xs, jnodes x ≤ (dumpV x).length) :
    jnodesList xs ≤ (dumpElems xs).length + 1 := by
  induction xs with
  | nil => rw [jnodesList]; omega
  | cons x tl ih =>
    have hx := h x (by simp)
    cases tl with
    | nil =>
      rw [jnodesList, jnodesList, dumpElems]
      omega
    | cons y tl2 =>
      have hrec := ih (fun z hz => h z (by simp [hz]))
      rw [jnodesList, dumpElems]
      simp only [List.length_append, List.length_cons]
      omega

theorem jnodesObj_le (kvs : List (String × JVal))
    (h : ∀ kv ∈ kvs, jnodes kv.2 ≤ (dumpV kv.2).length) :
    jnodesObj kvs ≤ (dumpMembers kvs).length + 1 := by
  induction kvs with
  | nil => rw [jnodesObj]; omega
  | cons kv tl ih =>
    have hx := h kv (by simp)
    cases tl with
    | nil =>
      rw [jnodesObj, jnodesObj, dumpMembers]
      simp only [List.length_cons, List.length_append]
      omega
    | cons m tl2 =>
      have hrec := ih (fun z hz => h z (by simp [hz]))
      rw [jnodesObj, dumpMembers]
      simp only [List.length_append, List.length_cons]
      omega

theorem jnodes_le_dumpV (v : JVal) : jnodes v ≤ (dumpV v).length := by
  induction v using JVal.myInduction with
  | hnull => rw [jnodes, dumpV] <;> simp
  | hbool b => cases b <;> rw [jnodes, dumpV] <;> simp
  | hnum n =>
    have hj : jnodes (JVal.num n) = 1 := by rw [jnodes] <;> simp
    rw [hj, dumpV, intChars]
    by_cases hn : n < 0
    · rw [if_pos hn]
      simp
    · rw [if_neg hn]
      have := natChars_ne_nil n.toNat
      have : 0 < (natChars n.toNat).length := List.length_pos.mpr this
      omega
  | hstr s =>
    have hj : jnodes (JVal.str s) = 1 := by rw [jnodes] <;> simp
    rw [hj, dumpV]
    simp
  | harr xs ih =>
    have := jnodesList_le xs ih
    rw [jnodes, dumpV]
    simp only [List.length_cons, List.length_append, List.length_singleton]
    omega
  | hobj kvs ih =>
    have := jnodesObj_le kvs ih
    rw [jnodes, dumpV]
    simp only [List.length_cons, List.length_append, List.length_singleton]
    omega

/-- Serialization round-trip: parsing `json.dumps(v)` recovers `v` exactly. -/
theorem parse_dumps (v : JVal) : parseJson (dumps v) = some v := by
  rw [parseJson, dumps]
  have hdata : (String.mk (dumpV v)).data = dumpV v := rfl
  rw [hdata]
  have h := parseV_dumpV v ((dumpV v).length + 1) []
    (by have := jnodes_le_dumpV v; omega) trivial
  rw [List.append_nil] at h
  rw [h]

/-! ### Dict lemmas -/
theorem dinsert_fresh (m : List (String × JVal)) (k : String) (v : JVal)
    (h : ∀ kv ∈ m, kv.1 ≠ k) : dinsert m k v = m ++ [(k, v)] := by
  induction m with
  | nil => rfl
  | cons kv0 rest ih =>
    cases kv0 with
    | mk k0 v0 =>
      rw [dinsert, if_neg (h (k0, v0) (by simp)), ih (fun x hx => h x (by simp [hx]))]
      rfl

theorem jnodes_pos (v : JVal) : 1 ≤ jnodes v := by
  cases v with
  | arr xs => rw [jnodes]; omega
  | obj kvs => rw [jnodes]; omega
  | null => rw [jnodes] <;> simp
  | bool b => rw [jnodes] <;> simp
  | num n => rw [jnodes] <;> simp
  | str s => rw [jnodes] <;> simp

/-! ### Claim C8: flatten is the identity on flat records -/
theorem flattenGo_flat :
    ∀ (record : List (String × JVal)) (f : Nat) (items : List (String × JVal)),
    jnodesObj record ≤ f →
    (∀ kv ∈ record, kv.2.isObj = false ∧ kv.2.isArr = false) →
    (record.map Prod.fst).Nodup →
    (∀ kv ∈ record, ∀ kv2 ∈ items, kv2.1 ≠ kv.1) →
    flattenGo f record ("") (".") items = items ++ record := by
  intro record
  induction record with
  | nil =>
    intro f items _ _ _ _
    cases f with
    | zero => simp [flattenGo]
    | succ g => simp [flattenGo]
  | cons kv rest ih =>
    intro f items hfuel hflat hnodup hfresh
    cases kv with
    | mk k v =>
      rw [jnodesObj] at hfuel
      have hv1 := jnodes_pos v
      match f, hfuel with
      | g + 1, _ =>
        have hd : dinsert items k v = items ++ [(k, v)] :=
          dinsert_fresh items k v (fun kv2 h2 => hfresh (k, v) (by simp) kv2 h2)
        have hrest : ∀ kv1 ∈ rest, ∀ kv2 ∈ items ++ [(k, v)], kv2.1 ≠ kv1.1 := by
          intro kv1 h1 kv2 h2
          rcases List.mem_append.mp h2 with h3 | h3
          · exact hfresh kv1 (by simp [h1]) kv2 h3
          · have hkv2 : kv2 = (k, v) := by simpa using h3
            rw [hkv2]
            simp only [List.map_cons, List.nodup_cons] at hnodup
            intro he
            simp only at he
            apply hnodup.1
            rw [he]
            exact List.mem_map_of_mem Prod.fst h1
        have hih := ih g (items ++ [(k, v)]) (by omega)
          (fun x hx => hflat x (by simp [hx]))
          (by simp only [List.map_cons, List.nodup_cons] at hnodup; exact hnodup.2)
          hrest
        obtain ⟨ho, ha⟩ := hflat (k, v) (by simp)
        cases v with
        | null =>
          have hstep : flattenGo (g + 1) ((k, JVal.null) :: rest) ("") (".") items =
              flattenGo g rest ("") (".") (dinsert items k (JVal.null)) := by
            rw [flattenGo] <;> simp
          rw [hstep, hd, hih]
          simp
        | bool b =>
          have hstep : flattenGo (g + 1) ((k, JVal.bool b) :: rest) ("") (".") items =
              flattenGo g rest ("") (".") (dinsert items k (JVal.bool b)) := by
            rw [flattenGo] <;> simp
          rw [hstep, hd, hih]
          simp
        | num n =>
          have hstep : flattenGo (g + 1) ((k, JVal.num n) :: rest) ("") (".") items =
              flattenGo g rest ("") (".") (dinsert items k (JVal.num n)) := by
            rw [flattenGo] <;> simp
          rw [hstep, hd, hih]
          simp
        | str s =>
          have hstep : flattenGo (g + 1) ((k, JVal.str s) :: rest) ("") (".") items =
              flattenGo g rest ("") (".") (dinsert items k (JVal.str s)) := by
            rw [flattenGo] <;> simp
          rw [hstep, hd, hih]
          simp
        | arr xs => exact absurd ha (by simp [JVal.isArr])
        | obj kvs => exact absurd ho (by simp [JVal.isObj])

/-- Claim C8: for every record with no nested structure (no value is a dict
or a list; keys are distinct as in any Python dict), `_flatten_record`
returns the record unchanged. -/
theorem C8_flatten_identity_on_flat (record : List (String × JVal))
    (hflat : ∀ kv ∈ record, kv.2.isObj = false ∧ kv.2.isArr = false)
    (hkeys : (record.map Prod.fst).Nodup) :
    flatten_record record = record := by
  rw [flatten_record,
    flattenGo_flat record (jnodesObj record) [] (Nat.le_refl _) hflat hkeys
      (by intro kv h kv2 h2; simp at h2)]
  rfl

/-- Witness for C8 at a concrete flat record. -/
theorem C8_witness :
    flatten_record [(("a" : String), .num 1), ("b", .str "x"), ("c", .null)] =
      [(("a" : String), .num 1), ("b", .str "x"), ("c", .null)] :=
  C8_flatten_identity_on_flat _ (by decide) (by decide)

/-! ### Claim C2: page-gating validation in `list_filings` -/

/-- Claim C2: whenever `page > 1` and none of the four identifying keys ends
up in the assembled filter dict (neither via the named parameters nor via
`additional_filters`), `list_filings` raises the InvalidQuery `ValueError`
before any transport request (zero requests); otherwise no error is raised
and the transport is called exactly once. -/
theorem C2_page_gating (T : List (String × JVal) → List (String × JVal))
    (a : FilingsArgs) (page : Int) :
    (page > 1 → hasIdentFilter (buildFilingsFilters a page) = false →
      list_filings T a page =
        (.error ("The API requires at least one filter when requesting page > 1."),
          0)) ∧
    (page ≤ 1 ∨ hasIdentFilter (buildFilingsFilters a page) = true →
      list_filings T a page = (.ok (T (buildFilingsFilters a page)), 1)) := by
  constructor
  · intro hp hf
    rw [list_filings]
    have hcond : (page > 1 && !(hasIdentFilter (buildFilingsFilters a page))) =
        true := by
      rw [hf, decide_eq_true hp]
      rfl
    rw [if_pos hcond]
  · intro h
    rw [list_filings]
    have hcond : (page > 1 && !(hasIdentFilter (buildFilingsFilters a page))) =
        false := by
      rcases h with h | h
      · rw [decide_eq_false (by omega)]
        rfl
      · rw [h]
        simp
    rw [if_neg (by rw [hcond]; simp)]

/-- Witness for C2: at `page = 2` with no filters the call errors with zero
transport requests; with a `client_id` filter the transport is called once. -/
theorem C2_witness :
    list_filings (fun _ => []) ⟨none, none, none, none, 25, none⟩ 2 =
      (.error ("The API requires at least one filter when requesting page > 1."),
        0) ∧
    list_filings (fun _ => []) ⟨some 7, none, none, none, 25, none⟩ 2 =
      (.ok [], 1) := by
  constructor
  · exact (C2_page_gating (fun _ => []) ⟨none, none, none, none, 25, none⟩ 2).1
      (by decide) (by decide)
  · exact (C2_page_gating (fun _ => []) ⟨some 7, none, none, none, 25, none⟩ 2).2
      (Or.inr (by decide))

/-! ### Claim C10: `max_pages <= 1` forces a single request -/

/-- Claim C10: for every `max_pages` value `m <= 1` (including `0` and
negatives), `list_all_filings` issues exactly one page request and returns
with `fetched_pages == 1` regardless of the response's `next` field, because
the cap check `page >= max_pages` already holds at page 1. -/
theorem C10_max_pages_le_one (T : List (String × JVal) → List (String × JVal))
    (a : FilingsArgs) (m : Int) (fuel : Nat) (rs1 : List JVal)
    (hm : m ≤ 1) (hfuel : 1 ≤ fuel)
    (hres : dGetD (T (buildFilingsFilters a 1)) ("results") (.arr []) = .arr rs1) :
    list_all_filings T a (some m) fuel =
      some (.ok (dinsert (dinsert (T (buildFilingsFilters a 1)) ("results")
        (.arr rs1)) ("fetched_pages") (.num 1)), 1) := by
  match fuel, hfuel with
  | f + 1, _ =>
    have hlf : list_filings T a 1 = (.ok (T (buildFilingsFilters a 1)), 1) := by
      rw [list_filings, if_neg (by simp)]
    have hcap : decide ((1 : Int) ≥ m) = true := decide_eq_true (by omega)
    rw [list_all_filings, fetchAllLoop, hlf]
    simp only [hres, pyExtend, hcap, Option.getD, Option.elim_some,
      Bool.and_eq_false_iff, Bool.not_true, Bool.and_false, Bool.not_false,
      if_true, List.nil_append]

/-- Witness for C10 at a stub transport whose page 1 has a non-null `next`
and `max_pages = 0`. -/
theorem C10_witness :
    list_all_filings
      (fun _ => [(("next" : String), .str "u"), ("results", .arr [.num 1])])
      ⟨none, none, none, none, 25, none⟩ (some 0) 3 =
      some (.ok [(("next" : String), .str "u"), ("results", .arr [.num 1]),
        ("fetched_pages", .num 1)], 1) := by
  have h := C10_max_pages_le_one
    (fun _ => [(("next" : String), .str "u"), ("results", .arr [.num 1])])
    ⟨none, none, none, none, 25, none⟩ 0 3 [.num 1] (by decide) (by decide)
    (by decide)
  simpa using h

/-! ### Claim C5 (corrected): the simplify scenario record -/

/-- Counterexample to C5 as stated: in the scenario record, the unset
direct-lookup column `registrant_contact` is `None` (null), not the empty
string, and the remaining column `filing_uuid` holds `"abc"`, also not the
empty string. -/
theorem C5_counterexample :
    (List.lookup ("registrant_contact") (simplified_row
      [(("filing_uuid" : String), .str "abc"),
       ("registrant", .obj [("name", .str "R")]),
       ("client", .obj [("name", .str "C")]), ("filing_year", .num 2024),
       ("income", .num 1000)]) = some JVal.null ∧
      JVal.null ≠ JVal.str "") ∧
    (List.lookup ("filing_uuid") (simplified_row
      [(("filing_uuid" : String), .str "abc"),
       ("registrant", .obj [("name", .str "R")]),
       ("client", .obj [("name", .str "C")]), ("filing_year", .num 2024),
       ("income", .num 1000)]) = some (JVal.str "abc") ∧
      JVal.str "abc" ≠ JVal.str "") := by decide

/-- Claim C5 (amended): simplifying the scenario record yields exactly the
15 fixed columns with `registrant_name = "R"`, `client_name = "C"`,
`filing_information = "2024"`, `income = 1000`, `filing_uuid = "abc"`; the
string-composed columns (`registrant_address`, `description`,
`government_entities`) are empty strings, and the unset direct-lookup
columns (`registrant_contact`, `registrant_phone`, `senate_id`, `expenses`,
`expenses_method`, `dt_posted`, `filing_document_url`) are null (`None`);
no column is absent. -/
theorem C5_simplify_scenario :
    simplified_row
      [(("filing_uuid" : String), .str "abc"),
       ("registrant", .obj [("name", .str "R")]),
       ("client", .obj [("name", .str "C")]), ("filing_year", .num 2024),
       ("income", .num 1000)] =
      [("registrant_name", .str "R"), ("registrant_address", .str ""),
       ("registrant_contact", .null), ("registrant_phone", .null),
       ("senate_id", .null), ("client_name", .str "C"),
       ("filing_information", .str "2024"), ("income", .num 1000),
       ("expenses", .null), ("expenses_method", .null), ("dt_posted", .null),
       ("description", .str ""), ("government_entities", .str ""),
       ("filing_uuid", .str "abc"), ("filing_document_url", .null)] := by decide

/-! ### Claim C3 (corrected): the composite `senate_id` -/

/-- Counterexample to C3 as stated: with `registrant.id` present but `0` and
`client.client_id = 34`, both components are present, yet `senate_id` is
`None` — the code tests Python truthiness, not presence, and the missing
case yields `None`, not an empty string. -/
theorem C3_counterexample :
    List.lookup ("senate_id") (simplified_row
      [(("registrant" : String), .obj [("id", .num 0)]),
       ("client", .obj [("client_id", .num 34)])]) = some JVal.null ∧
    some JVal.null ≠ some (JVal.str "0-34") := by decide

/-- Claim C3 (amended): for a record whose `registrant` and `client` fields
resolve to dicts, `senate_id` is the string
`"{registrant.id}-{client.client_id or client.id}"` exactly when
`registrant.id` and `client.client_id or client.id` are both truthy
(present with a non-zero, non-empty value), and is null (`None`, the empty
CSV cell) otherwise; in particular it is null whenever `registrant.id` or
both client identifiers are missing. -/
theorem C3_senate_id (record : List (String × JVal))
    (robj cobj : List (String × JVal))
    (hreg : pyOr (dGetD record ("registrant") .null) (.obj []) = .obj robj)
    (hcl : pyOr (dGetD record ("client") .null) (.obj []) = .obj cobj) :
    List.lookup ("senate_id") (simplified_row record) =
      (if (dGetD robj ("id") .null).truthy &&
          (pyOr (dGetD cobj ("client_id") .null) (dGetD cobj ("id") .null)).truthy
       then
        some (.str (pyStr (dGetD robj ("id") .null) ++ "-" ++
          pyStr (pyOr (dGetD cobj ("client_id") .null) (dGetD cobj ("id") .null))))
       else some .null) := by
  rw [simplified_row]
  simp only [hreg, hcl, JVal.getD]
  simp only [List.lookup]
  simp only [show ((("senate_id" : String) == "registrant_name") = false) from rfl,
    show ((("senate_id" : String) == "registrant_address") = false) from rfl,
    show ((("senate_id" : String) == "registrant_contact") = false) from rfl,
    show ((("senate_id" : String) == "registrant_phone") = false) from rfl,
    show ((("senate_id" : String) == "senate_id") = true) from rfl]
  split
  · rfl
  · rfl

/-- Witness for C3 at the spec's own examples: `registrant.id = 12` with
`client.client_id = 34`, and with only `client.id = 34`. -/
theorem C3_witness :
    List.lookup ("senate_id") (simplified_row
      [(("registrant" : String), .obj [("id", .num 12)]),
       ("client", .obj [("client_id", .num 34)])]) = some (.str "12-34") ∧
    List.lookup ("senate_id") (simplified_row
      [(("registrant" : String), .obj [("id", .num 12)]),
       ("client", .obj [("id", .num 34)])]) = some (.str "12-34") ∧
    List.lookup ("senate_id") (simplified_row
      [(("client" : String), .obj [("client_id", .num 34)])]) = some JVal.null := by
  refine ⟨?_, ?_, ?_⟩
  · have h := C3_senate_id
      [(("registrant" : String), .obj [("id", .num 12)]),
       ("client", .obj [("client_id", .num 34)])]
      [("id", .num 12)] [("client_id", .num 34)] (by decide) (by decide)
    rw [h]
    decide
  · have h := C3_senate_id
      [(("registrant" : String), .obj [("id", .num 12)]),
       ("client", .obj [("id", .num 34)])]
      [("id", .num 12)] [("id", .num 34)] (by decide) (by decide)
    rw [h]
    decide
  · have h := C3_senate_id
      [(("client" : String), .obj [("client_id", .num 34)])]
      [] [("client_id", .num 34)] (by decide) (by decide)
    rw [h]
    decide

theorem dedupFirstF_fuel : ∀ (n : Nat) (xs : List String), xs.length ≤ n →
    ∀ f g, xs.length ≤ f → xs.length ≤ g → dedupFirstF f xs = dedupFirstF g xs := by
  intro n
  induction n with
  | zero =>
    intro xs h f g hf hg
    match xs, h with
    | [], _ => cases f <;> cases g <;> rfl
  | succ m ih =>
    intro xs h f g hf hg
    match xs with
    | [] => cases f <;> cases g <;> rfl
    | x :: tl =>
      simp only [List.length_cons] at h hf hg
      cases f with
      | zero => omega
      | succ ff =>
        cases g with
        | zero => omega
        | succ gg =>
          rw [dedupFirstF, dedupFirstF]
          have hlen := List.length_filter_le (fun y => y ≠ x) tl
          rw [ih (tl.filter (fun y => y ≠ x)) (by omega) ff gg (by omega) (by omega)]

theorem dedupFirst_cons (x : String) (tl : List String) :
    dedupFirst (x :: tl) = x :: dedupFirst (tl.filter (fun y => y ≠ x)) := by
  rw [dedupFirst, dedupFirst, List.length_cons, dedupFirstF]
  have hlen := List.length_filter_le (fun y => y ≠ x) tl
  rw [dedupFirstF_fuel (tl.length) (tl.filter (fun y => y ≠ x)) hlen tl.length
    (tl.filter (fun y => y ≠ x)).length hlen (Nat.le_refl _)]

theorem uniqueStrGo_spec :
    ∀ (vs seen ordered : List String),
    uniqueStrGo seen ordered vs =
      ordered ++ dedupFirst (vs.filter (fun v => !(v == "") && !(seen.contains v))) := by
  intro vs
  induction vs with
  | nil =>
    intro seen ordered
    simp [uniqueStrGo, dedupFirst, dedupFirstF]
  | cons v vs ih =>
    intro seen ordered
    by_cases hv : v = ""
    · rw [uniqueStrGo, if_pos hv, ih]
      have : (v == "") = true := by simp [hv]
      simp only [List.filter_cons, this, Bool.not_true, Bool.false_and]
      rfl
    · rw [uniqueStrGo, if_neg hv]
      by_cases hs : v ∈ seen
      · rw [if_pos hs, ih]
        have h1 : (seen.contains v) = true := List.elem_eq_true_of_mem hs
        have h2 : (!(v == "") && !(seen.contains v)) = false := by
          rw [h1]
          simp
        simp only [List.filter_cons, h2]
        rfl
      · rw [if_neg hs, ih (v :: seen) (ordered ++ [v])]
        have h1 : (seen.contains v) = false := by
          simp [List.contains]
          exact hs
        have h2 : (!(v == "") && !(seen.contains v)) = true := by
          rw [h1]
          simp [hv]
        rw [List.append_assoc]
        congr 1
        simp only [List.filter_cons, h2, if_true]
        rw [dedupFirst_cons, List.filter_filter]
        have hpred : ∀ y,
            ((fun y => !(y == "") && !((v :: seen).contains y)) y) =
              ((fun y => decide (y ≠ v) && (!(y == "") && !(seen.contains y))) y) := by
          intro y
          by_cases e1 : y = v <;> by_cases e2 : y = "" <;>
            by_cases e3 : seen.contains y <;>
            simp [e1, e2, e3, List.contains_cons]
        rw [List.filter_congr (fun y hy => hpred y)]
        simp

/-- `_unique` over strings computes exactly first-occurrence deduplication of
the nonempty values, in order. -/
theorem uniqueStr_spec (vs : List String) :
    uniqueStr vs = dedupFirst (vs.filter (fun s => s ≠ "")) := by
  rw [uniqueStr, uniqueStrGo_spec]
  have hpred : ∀ y ∈ vs,
      ((fun v => !(v == "") && !(List.contains [] v)) y) =
        ((fun s => decide (s ≠ "")) y) := by
    intro y hy
    by_cases e : y = "" <;> simp [e]
  rw [List.filter_congr hpred]
  rfl

/-- Claim C7: for every record whose `lobbying_activities` is a list, the
simplified row's `description` is the `"; "`-join of the
whitespace-normalized activity descriptions with empty values skipped and
duplicates removed, keeping first-seen order. -/
theorem C7_description_dedup (record : List (String × JVal)) (acts : List JVal)
    (hacts : dGetD record ("lobbying_activities") (.arr []) = .arr acts) :
    List.lookup ("description") (simplified_row record) =
      some (.str (String.intercalate ("; ")
        (dedupFirst ((acts.map (fun a =>
          normalize_text (a.getD ("description") .null))).filter
            (fun s => s ≠ ""))))) := by
  rw [simplified_row]
  simp only [hacts, JVal.asArr]
  rw [uniqueStr_spec]
  simp [List.lookup]

/-- Witness for C7 at the spec's example: descriptions
`["A", "A", "B", ""]` produce `"A; B"`. -/
theorem C7_witness :
    List.lookup ("description") (simplified_row
      [(("lobbying_activities" : String), .arr
        [.obj [("description", .str "A")], .obj [("description", .str "A")],
         .obj [("description", .str "B")], .obj [("description", .str "")]])]) =
      some (.str "A; B") := by
  have h := C7_description_dedup
    [(("lobbying_activities" : String), .arr
      [.obj [("description", .str "A")], .obj [("description", .str "A")],
       .obj [("description", .str "B")], .obj [("description", .str "")]])]
    [.obj [("description", .str "A")], .obj [("description", .str "A")],
     .obj [("description", .str "B")], .obj [("description", .str "")]]
    (by decide)
  rw [h]
  decide

/-! ### Claim C4 (corrected): explicit fieldnames in `_write_csv` -/

/-- Counterexample to C4 as stated: a row key outside the fieldnames list is
not silently ignored — `csv.DictWriter` (default `extrasaction='raise'`)
raises `ValueError` and the write fails. -/
theorem C4_counterexample :
    write_csv [[(("a" : String), .num 1), ("extra", .num 2)]] (some ["a"]) =
      .error ("dict contains fields not in fieldnames") := by decide

theorem writeCsvRows_ok (fns : List String) (rows : List (List (String × JVal)))
    (h : ∀ row ∈ rows, ∀ kv ∈ row, fns.contains kv.1 = true) :
    writeCsvRows fns rows =
      .ok (rows.map (fun r => fns.map (fun f => (r.lookup f).getD (.str "")))) := by
  induction rows with
  | nil => rfl
  | cons r rest ih =>
    have hany : (r.any (fun kv => !(fns.contains kv.1))) = false := by
      rw [List.any_eq_false]
      intro kv hkv
      rw [h r (by simp) kv hkv]
      simp
    rw [writeCsvRows, dictToList, if_neg (by rw [hany]; simp),
      ih (fun row hrow kv hkv => h row (by simp [hrow]) kv hkv)]
    rfl

theorem writeCsvRows_err (fns : List String) (rows : List (List (String × JVal)))
    (h : rows.any (fun r => r.any (fun kv => !(fns.contains kv.1))) = true) :
    ∃ e, writeCsvRows fns rows = .error e := by
  induction rows with
  | nil => simp at h
  | cons r rest ih =>
    rw [List.any_cons] at h
    by_cases hr : (r.any (fun kv => !(fns.contains kv.1))) = true
    · refine ⟨("dict contains fields not in fieldnames"), ?_⟩
      rw [writeCsvRows, dictToList, if_pos hr]
    · have hrest : rest.any (fun r => r.any (fun kv => !(fns.contains kv.1))) =
          true := by
        rcases Bool.or_eq_true_iff.mp h with h1 | h1
        · exact absurd h1 hr
        · exact h1
      obtain ⟨e, he⟩ := ih hrest
      refine ⟨e, ?_⟩
      rw [writeCsvRows, dictToList, if_neg hr, he]

/-- Claim C4 (amended): with an explicitly supplied `fieldnames` list, the
CSV writer uses exactly that ordered list as the header, and every row
missing one of the listed keys is written with an empty value in that
column; but a key of a row that is not in the fieldnames list makes the
write fail with `ValueError` (`csv.DictWriter`'s default
`extrasaction='raise'`), it is not silently ignored. -/
theorem C4_write_csv_explicit (rows : List (List (String × JVal)))
    (fns : List String) :
    ((∀ row ∈ rows, ∀ kv ∈ row, fns.contains kv.1 = true) →
      write_csv rows (some fns) =
        .ok (fns, rows.map (fun r => fns.map (fun f =>
          csvCell ((r.lookup f).getD (.str "")))))) ∧
    ((rows.any (fun r => r.any (fun kv => !(fns.contains kv.1))) = true) →
      ∃ e, write_csv rows (some fns) = .error e) := by
  constructor
  · intro h
    rw [write_csv]
    rw [writeCsvRows_ok _ _ h]
    simp [List.map_map]
  · intro h
    obtain ⟨e, he⟩ := writeCsvRows_err fns rows h
    refine ⟨e, ?_⟩
    rw [write_csv]
    rw [he]

/-- Witness for C4: a row missing a listed key gets an empty cell under the
exact supplied header; a row with an extra key makes the write fail. -/
theorem C4_witness :
    write_csv [[(("a" : String), .num 1)], [(("b" : String), .str "v")]]
      (some ["a", "b"]) = .ok (["a", "b"], [["1", ""], ["", "v"]]) ∧
    (∃ e, write_csv [[(("a" : String), .num 1), ("x", .num 2)]] (some ["a"]) =
      .error e) := by
  constructor
  · have h := (C4_write_csv_explicit
      [[(("a" : String), .num 1)], [(("b" : String), .str "v")]]
      ["a", "b"]).1 (by decide)
    rw [h]
    decide
  · exact (C4_write_csv_explicit [[(("a" : String), .num 1), ("x", .num 2)]]
      ["a"]).2 (by decide)

/-! ### Claim C9 (corrected): transport retry and error behaviour -/
theorem getLoop_step (net : Nat → GetOutcome) (url : String) (tmo : Int)
    (attempts : Nat) :
    getLoop net url tmo attempts =
      match net (attempts + 1) with
      | .timeout =>
        if attempts + 1 ≥ 2 then (.error (.timeoutErr url tmo), attempts + 1)
        else getLoop net url tmo (attempts + 1)
      | .fail e => (.error (.netOther e), attempts + 1)
      | .response status body js => (.ok (status, body, js), attempts + 1) := by
  rw [getLoop]

/-- Claim C9 (amended): a timed-out GET is retried exactly once, and a second
timeout fails with the Timeout error carrying the URL and the configured
timeout; non-timeout network errors propagate immediately without retry; a
4xx/5xx response fails with the HTTPFailure error carrying status and body
without retry (but a non-2xx status below 400, e.g. 304, does *not* raise —
`raise_for_status` raises only for 4xx/5xx); a response below 400 with a
JSON body returns the parsed body, after at most one retry. -/
theorem C9_request_retry_and_errors (net : Nat → GetOutcome)
    (base path : String) (tmo : Int) :
    (net 1 = .timeout → net 2 = .timeout →
      request net base path tmo =
        (.error (.timeoutErr (requestUrl base path) tmo), 2)) ∧
    (∀ e, net 1 = .fail e →
      request net base path tmo = (.error (.netOther e), 1)) ∧
    (∀ st body js, net 1 = .response st body js → 400 ≤ st → st < 600 →
      request net base path tmo = (.error (.httpErr st body), 1)) ∧
    (∀ st body j, net 1 = .response st body (some j) → st < 400 →
      request net base path tmo = (.ok j, 1)) ∧
    (∀ st body j, net 1 = .timeout → net 2 = .response st body (some j) →
      st < 400 → request net base path tmo = (.ok j, 2)) := by
  refine ⟨?_, ?_, ?_, ?_, ?_⟩
  · intro h1 h2
    rw [request, getLoop_step]
    simp only [Nat.zero_add, h1]
    rw [if_neg (by omega), getLoop_step]
    simp only [Nat.reduceAdd, h2]
    rw [if_pos (by omega)]
  · intro e h1
    rw [request, getLoop_step]
    simp only [Nat.zero_add, h1]
  · intro st body js h1 h4 h6
    rw [request, getLoop_step]
    simp only [Nat.zero_add, h1]
    rw [if_pos (by omega)]
  · intro st body j h1 hlt
    rw [request, getLoop_step]
    simp only [Nat.zero_add, h1]
    rw [if_neg (by omega)]
  · intro st body j h1 h2 hlt
    rw [request, getLoop_step]
    simp only [Nat.zero_add, h1]
    rw [if_neg (by omega), getLoop_step]
    simp only [Nat.reduceAdd, h2]
    rw [if_neg (by omega)]

/-- Counterexample to C9 as stated: a non-2xx response does not necessarily
fail with the HTTPFailure error — `raise_for_status` raises only for
4xx/5xx, so a 304 response whose body is valid JSON is returned
successfully. -/
theorem C9_counterexample :
    request (fun _ => .response 304 ("null") (some .null)) ("b") ("p") 60 =
      (.ok .null, 1) := by
  rw [request, getLoop_step]
  simp only [Nat.zero_add]
  rw [if_neg (by omega)]

/-- Witness for C9: two timeouts produce the Timeout error after exactly two
attempts; a 500 response fails immediately with status and body. -/
theorem C9_witness :
    request (fun _ => GetOutcome.timeout) ("base") ("p") 60 =
      (.error (.timeoutErr (requestUrl ("base") ("p")) 60), 2) ∧
    request (fun _ => .response 500 ("boom") none) ("base") ("p") 60 =
      (.error (.httpErr 500 ("boom")), 1) := by
  constructor
  · exact (C9_request_retry_and_errors (fun _ => GetOutcome.timeout)
      ("base") ("p") 60).1 rfl rfl
  · exact (C9_request_retry_and_errors (fun _ => .response 500 ("boom") none)
      ("base") ("p") 60).2.2.1 500 ("boom") none rfl (by omega) (by omega)

theorem pagesConcat_succ (rs : Int → List JVal) (start : Int) (k : Nat) :
    pagesConcat rs start (k + 1) = rs start ++ pagesConcat rs (start + 1) k := by
  rw [pagesConcat, pagesConcat, List.range_succ_eq_map]
  simp only [List.map_cons, List.map_map, List.flatten_cons]
  congr 1
  · congr 1
    simp
  · congr 1
    apply List.map_congr_left
    intro i _
    simp only [Function.comp]
    congr 1
    simp [Int.ofNat_succ]
    ring

theorem fetchAllLoop_spec (T : List (String × JVal) → List (String × JVal))
    (a : FilingsArgs) (maxPages : Option Int) (M : Int) (rs : Int → List JVal)
    (hfilters : ∀ p : Int, hasIdentFilter (buildFilingsFilters a p) = true)
    (hres : ∀ p : Int, 1 ≤ p → p ≤ M →
      dGetD (T (buildFilingsFilters a p)) ("results") (.arr []) = .arr (rs p))
    (hterm : (dGetD (T (buildFilingsFilters a M)) ("next") .null).truthy = false ∨
      (∃ m, maxPages = some m ∧ m ≤ M))
    (hcont : ∀ p : Int, 1 ≤ p → p < M →
      (dGetD (T (buildFilingsFilters a p)) ("next") .null).truthy = true ∧
      (∀ m, maxPages = some m → p < m)) :
    ∀ (fuel : Nat) (page : Int) (firstR : Option (List (String × JVal)))
      (acc : List JVal) (calls : Nat),
    1 ≤ page → page ≤ M → (M - page).toNat < fuel →
    fetchAllLoop T a maxPages fuel page firstR acc calls =
      some (.ok (dinsert (dinsert (firstR.getD (T (buildFilingsFilters a page)))
        ("results") (.arr (acc ++ pagesConcat rs page ((M - page).toNat + 1))))
        ("fetched_pages") (.num M)), calls + 1 + (M - page).toNat) := by
  intro fuel
  induction fuel with
  | zero =>
    intro page firstR acc calls h1 h2 h3
    omega
  | succ f ih =>
    intro page firstR acc calls h1 h2 h3
    have hlf : list_filings T a page = (.ok (T (buildFilingsFilters a page)), 1) := by
      rw [list_filings, hfilters page, if_neg (by simp)]
    rw [fetchAllLoop, hlf]
    simp only [hres page h1 h2, pyExtend]
    by_cases hpm : page = M
    · subst hpm
      have hnext : ((dGetD (T (buildFilingsFilters a page)) ("next") .null).truthy &&
          !(maxPages.elim false (fun m => decide (page ≥ m)))) = false := by
        rcases hterm with h | ⟨m, hmp, hmle⟩
        · rw [h]
          simp
        · rw [hmp]
          simp only [Option.elim_some]
          rw [decide_eq_true (by omega : page ≥ m)]
          simp
      rw [hnext]
      simp only [Bool.not_false, if_true]
      rw [show (page - page).toNat = 0 from by omega]
      rw [pagesConcat, show List.range 1 = [0] from rfl]
      simp only [List.map_cons, List.map_nil, List.flatten_cons,
        List.flatten_nil, List.append_nil]
      rw [show page + Int.ofNat 0 = page from by simp]
    · have hlt : page < M := by omega
      obtain ⟨hn, hcap⟩ := hcont page h1 hlt
      have hnext : ((dGetD (T (buildFilingsFilters a page)) ("next") .null).truthy &&
          !(maxPages.elim false (fun m => decide (page ≥ m)))) = true := by
        rw [hn]
        cases maxPages with
        | none => simp
        | some m =>
          simp only [Option.elim_some]
          rw [decide_eq_false (by have := hcap m rfl; omega : ¬(page ≥ m))]
          simp
      rw [hnext]
      rw [if_neg (by simp)]
      rw [ih (page + 1) (some (firstR.getD (T (buildFilingsFilters a page))))
        (acc ++ rs page) (calls + 1) (by omega) (by omega) (by omega)]
      have hk : (M - page).toNat = (M - (page + 1)).toNat + 1 := by omega
      rw [hk, pagesConcat_succ]
      simp only [Option.getD_some, List.append_assoc]
      rw [show calls + 1 + 1 + (M - (page + 1)).toNat =
        calls + 1 + ((M - (page + 1)).toNat + 1) from by omega]
      rw [pagesConcat_succ, pagesConcat_succ]

/-- Claim C1: against a transport serving a finite page sequence (`next`
truthy on pages `1..N-1`, falsy on page `N`) with list-valued `results`, and
with at least one identifying filter present (as `list_filings` requires
beyond page 1), `list_all_filings` with `max_pages` absent or `m >= 1`
issues exactly `min(N, m)` page requests and returns the first page's
response with `results` replaced by the in-order concatenation of the
fetched pages' results and `fetched_pages = min(N, m)`. -/
theorem C1_pager_fetches_min_pages
    (T : List (String × JVal) → List (String × JVal)) (a : FilingsArgs)
    (maxPages : Option Int) (N M : Int) (rs : Int → List JVal) (fuel : Nat)
    (hN : 1 ≤ N)
    (hM : M = (match maxPages with | none => N | some m => min N m))
    (hm : ∀ m, maxPages = some m → 1 ≤ m)
    (hfilters : ∀ p : Int, hasIdentFilter (buildFilingsFilters a p) = true)
    (hnext_mid : ∀ p : Int, 1 ≤ p → p < N →
      (dGetD (T (buildFilingsFilters a p)) ("next") .null).truthy = true)
    (hnext_N : (dGetD (T (buildFilingsFilters a N)) ("next") .null).truthy = false)
    (hres : ∀ p : Int, 1 ≤ p → p ≤ M →
      dGetD (T (buildFilingsFilters a p)) ("results") (.arr []) = .arr (rs p))
    (hfuel : M.toNat ≤ fuel) :
    list_all_filings T a maxPages fuel =
      some (.ok (dinsert (dinsert (T (buildFilingsFilters a 1)) ("results")
        (.arr (pagesConcat rs 1 M.toNat))) ("fetched_pages") (.num M)),
        M.toNat) := by
  have hM1 : 1 ≤ M := by
    rcases hmp : maxPages with _ | m
    · rw [hmp] at hM
      simp at hM
      omega
    · rw [hmp] at hM
      simp at hM
      have := hm m hmp
      omega
  have hMN : M ≤ N := by
    rcases hmp : maxPages with _ | m
    · rw [hmp] at hM
      simp at hM
      omega
    · rw [hmp] at hM
      simp at hM
      omega
  have hterm : (dGetD (T (buildFilingsFilters a M)) ("next") .null).truthy = false ∨
      (∃ m, maxPages = some m ∧ m ≤ M) := by
    rcases hmp : maxPages with _ | m
    · left
      rw [hmp] at hM
      simp at hM
      rw [hM]
      exact hnext_N
    · rw [hmp] at hM
      simp at hM
      by_cases hmn : m ≤ N
      · right
        exact ⟨m, rfl, by omega⟩
      · left
        rw [show M = N from by omega]
        exact hnext_N
  have hcont : ∀ p : Int, 1 ≤ p → p < M →
      (dGetD (T (buildFilingsFilters a p)) ("next") .null).truthy = true ∧
      (∀ m, maxPages = some m → p < m) := by
    intro p hp1 hpM
    constructor
    · exact hnext_mid p hp1 (by omega)
    · intro m hmp
      rw [hmp] at hM
      simp at hM
      omega
  have h := fetchAllLoop_spec T a maxPages M rs hfilters hres hterm hcont fuel 1
    none [] 0 (by omega) (by omega) (by omega)
  rw [list_all_filings, h]
  simp only [Option.getD_none, List.nil_append, Nat.zero_add]
  rw [show (M - 1).toNat + 1 = M.toNat from by omega,
    show 1 + (M - 1).toNat = M.toNat from by omega]

theorem C1_witness :
    list_all_filings c1Stub c1Args none 9 =
      some (.ok [("count", .num 9), ("next", .str "u"),
        ("results", .arr [.num 1, .num 2, .num 3, .num 4]),
        ("fetched_pages", .num 4)], 4) ∧
    list_all_filings c1Stub c1Args (some 2) 9 =
      some (.ok [("count", .num 9), ("next", .str "u"),
        ("results", .arr [.num 1, .num 2]),
        ("fetched_pages", .num 2)], 2) := by
  constructor
  · have h := C1_pager_fetches_min_pages c1Stub c1Args none 4 4 c1rs 9
      (by decide) rfl (by intro m hmp; cases hmp)
      (by intro p; rfl)
      (by intro p h1 h2
          show (if p < 4 then JVal.str "u" else JVal.null).truthy = true
          rw [if_pos h2]
          rfl)
      (by rfl)
      (by intro p h1 h2; rfl)
      (by decide)
    rw [h]
    decide
  · have h := C1_pager_fetches_min_pages c1Stub c1Args (some 2) 4 2 c1rs 9
      (by decide) (by decide)
      (by intro m hmp; injection hmp with e; omega)
      (by intro p; rfl)
      (by intro p h1 h2
          show (if p < 4 then JVal.str "u" else JVal.null).truthy = true
          rw [if_pos (by omega)]
          rfl)
      (by rfl)
      (by intro p h1 h2; rfl)
      (by decide)
    rw [h]
    decide

theorem flatPathsV_nonobj (v : JVal) (pre sep : String)
    (h : ∀ sub, v ≠ .obj sub) : flatPathsV v pre sep = [pre] := by
  cases v with
  | obj sub => exact absurd rfl (h sub)
  | null => rfl
  | bool b => rfl
  | num n => rfl
  | str s => rfl
  | arr xs => rfl

theorem lookup_cons_self (key : String) (v1 : JVal) (rest : List (String × JVal)) :
    List.lookup key ((key, v1) :: rest) = some v1 := by
  simp [List.lookup]

theorem lookup_cons_ne (key k1 : String) (v1 : JVal) (rest : List (String × JVal))
    (h : key ≠ k1) : List.lookup key ((k1, v1) :: rest) = List.lookup key rest := by
  simp [List.lookup, beq_eq_false_iff_ne.mpr h]

theorem lookup_dinsert_self (d : List (String × JVal)) (k : String) (v : JVal) :
    List.lookup k (dinsert d k v) = some v := by
  induction d with
  | nil => exact lookup_cons_self k v []
  | cons kv rest ih =>
    cases kv with
    | mk k1 v1 =>
      rw [dinsert]
      by_cases h : k1 = k
      · subst h
        rw [if_pos rfl]
        exact lookup_cons_self k1 v rest
      · rw [if_neg h, lookup_cons_ne _ _ _ _ (Ne.symm h)]
        exact ih

theorem lookup_dinsert_ne (d : List (String × JVal)) (k key : String) (v : JVal)
    (h : key ≠ k) : List.lookup key (dinsert d k v) = List.lookup key d := by
  induction d with
  | nil =>
    rw [dinsert, lookup_cons_ne _ _ _ _ h]
  | cons kv rest ih =>
    cases kv with
    | mk k1 v1 =>
      rw [dinsert]
      by_cases h1 : k1 = k
      · subst h1
        rw [if_pos rfl, lookup_cons_ne key k1 v rest h,
          lookup_cons_ne key k1 v1 rest h]
      · rw [if_neg h1]
        by_cases h2 : key = k1
        · subst h2
          rw [lookup_cons_self, lookup_cons_self]
        · rw [lookup_cons_ne key k1 v1 _ h2, lookup_cons_ne key k1 v1 rest h2, ih]

theorem keys_dinsert_subset (d : List (String × JVal)) (k : String) (v : JVal) :
    ((dinsert d k v).map Prod.fst) ⊆ d.map Prod.fst ++ [k] := by
  induction d with
  | nil => simp [dinsert]
  | cons kv rest ih =>
    cases kv with
    | mk k1 v1 =>
      rw [dinsert]
      by_cases h : k1 = k
      · subst h
        simp
      · rw [if_neg h]
        intro x hx
        simp only [List.map_cons, List.mem_cons] at hx
        rcases hx with rfl | hx
        · simp
        · have h2 := ih hx
          simp only [List.mem_append, List.mem_singleton] at h2
          simp only [List.map_cons, List.cons_append, List.mem_cons,
            List.mem_append, List.mem_singleton]
          tauto

theorem keys_pyUpdate_subset (e : List (String × JVal)) :
    ∀ d, ((pyUpdate d e).map Prod.fst) ⊆ d.map Prod.fst ++ e.map Prod.fst := by
  induction e with
  | nil => intro d; simp [pyUpdate]
  | cons kv rest ih =>
    intro d x hx
    have hx2 := ih (dinsert d kv.1 kv.2) hx
    simp only [List.mem_append] at hx2 ⊢
    simp only [List.map_cons, List.mem_cons]
    rcases hx2 with hx2 | hx2
    · have h3 := keys_dinsert_subset d kv.1 kv.2 hx2
      simp only [List.mem_append, List.mem_singleton] at h3
      tauto
    · tauto

theorem lookup_pyUpdate_notin (e : List (String × JVal)) :
    ∀ d key, key ∉ e.map Prod.fst →
    List.lookup key (pyUpdate d e) = List.lookup key d := by
  induction e with
  | nil => intro d key _; rfl
  | cons kv rest ih =>
    intro d key h
    simp only [List.map_cons, List.mem_cons] at h
    push_neg at h
    have h2 := ih (dinsert d kv.1 kv.2) key h.2
    rw [show pyUpdate d (kv :: rest) = pyUpdate (dinsert d kv.1 kv.2) rest from rfl,
      h2, lookup_dinsert_ne _ _ _ _ h.1]

theorem flattenGo_step_obj (g : Nat) (k : String) (sub rest : List (String × JVal))
    (pre sep : String) (items : List (String × JVal)) :
    flattenGo (g + 1) ((k, JVal.obj sub) :: rest) pre sep items =
      flattenGo g rest pre sep (pyUpdate items
        (flattenGo g sub (if pre = "" then k else pre ++ sep ++ k) sep [])) := by
  rw [flattenGo]

theorem flattenGo_step_arr (g : Nat) (k : String) (xs : List JVal)
    (rest : List (String × JVal)) (pre sep : String)
    (items : List (String × JVal)) :
    flattenGo (g + 1) ((k, JVal.arr xs) :: rest) pre sep items =
      flattenGo g rest pre sep (dinsert items
        (if pre = "" then k else pre ++ sep ++ k) (.str (dumps (.arr xs)))) := by
  rw [flattenGo]

theorem flattenGo_step_nonobj (g : Nat) (k : String) (v : JVal)
    (rest : List (String × JVal)) (pre sep : String)
    (items : List (String × JVal)) (h : ∀ sub, v ≠ .obj sub) :
    ∃ w, flattenGo (g + 1) ((k, v) :: rest) pre sep items =
      flattenGo g rest pre sep (dinsert items
        (if pre = "" then k else pre ++ sep ++ k) w) := by
  cases v with
  | obj sub => exact absurd rfl (h sub)
  | null => exact ⟨.null, by rw [flattenGo] <;> simp⟩
  | bool b => exact ⟨.bool b, by rw [flattenGo] <;> simp⟩
  | num n => exact ⟨.num n, by rw [flattenGo] <;> simp⟩
  | str s => exact ⟨.str s, by rw [flattenGo] <;> simp⟩
  | arr xs => exact ⟨.str (dumps (.arr xs)), by rw [flattenGo]⟩

theorem flattenGo_keys_subset :
    ∀ (f : Nat), ∀ (record : List (String × JVal)) (pre sep : String)
      (items : List (String × JVal)),
    jnodesObj record ≤ f →
    ((flattenGo f record pre sep items).map Prod.fst) ⊆
      items.map Prod.fst ++ flatPathsObj record pre sep := by
  intro f
  induction f with
  | zero =>
    intro record pre sep items _
    rw [flattenGo]
    simp
  | succ g ih =>
    intro record pre sep items hfuel
    cases record with
    | nil =>
      rw [flattenGo]
      simp
    | cons kv rest =>
      cases kv with
      | mk k v =>
        rw [jnodesObj] at hfuel
        have hvpos := jnodes_pos v
        by_cases hv : ∃ sub, v = .obj sub
        · obtain ⟨sub, rfl⟩ := hv
          rw [flattenGo_step_obj]
          rw [jnodes] at hfuel
          intro x hx
          have h1 := ih rest pre sep _ (by omega) hx
          rw [flatPathsObj, flatPathsV]
          simp only [List.mem_append] at h1 ⊢
          rcases h1 with h1 | h1
          · have h2 := keys_pyUpdate_subset _ items h1
            simp only [List.mem_append] at h2
            rcases h2 with h2 | h2
            · tauto
            · have h3 := ih sub (if pre = "" then k else pre ++ sep ++ k) sep []
                (by omega) h2
              simp only [List.map_nil, List.nil_append, List.mem_append] at h3
              tauto
          · tauto
        · have hv' : ∀ sub, v ≠ .obj sub := by push_neg at hv; exact hv
          obtain ⟨w, hstep⟩ := flattenGo_step_nonobj g k v rest pre sep items hv'
          rw [hstep]
          intro x hx
          have h1 := ih rest pre sep _ (by omega) hx
          rw [flatPathsObj, flatPathsV_nonobj _ _ _ hv']
          simp only [List.mem_append] at h1 ⊢
          rcases h1 with h1 | h1
          · have h2 := keys_dinsert_subset items _ _ h1
            simp only [List.mem_append, List.mem_singleton] at h2
            simp only [List.singleton_append, List.mem_cons]
            tauto
          · tauto

theorem flattenGo_lookup_absent :
    ∀ (f : Nat), ∀ (record : List (String × JVal)) (pre sep : String)
      (items : List (String × JVal)) (key : String),
    jnodesObj record ≤ f → key ∉ flatPathsObj record pre sep →
    List.lookup key (flattenGo f record pre sep items) = List.lookup key items := by
  intro f
  induction f with
  | zero =>
    intro record pre sep items key _ _
    rw [flattenGo]
  | succ g ih =>
    intro record pre sep items key hfuel hmem
    cases record with
    | nil => rw [flattenGo]
    | cons kv rest =>
      cases kv with
      | mk k v =>
        rw [jnodesObj] at hfuel
        have hvpos := jnodes_pos v
        rw [flatPathsObj] at hmem
        simp only [List.mem_append] at hmem
        push_neg at hmem
        by_cases hv : ∃ sub, v = .obj sub
        · obtain ⟨sub, rfl⟩ := hv
          rw [flattenGo_step_obj]
          rw [jnodes] at hfuel
          rw [ih rest pre sep _ key (by omega) hmem.2]
          apply lookup_pyUpdate_notin
          intro hx
          have h3 := flattenGo_keys_subset g sub
            (if pre = "" then k else pre ++ sep ++ k) sep [] (by omega) hx
          simp only [List.map_nil, List.nil_append] at h3
          rw [flatPathsV] at hmem
          exact hmem.1 h3
        · have hv' : ∀ sub, v ≠ .obj sub := by push_neg at hv; exact hv
          obtain ⟨w, hstep⟩ := flattenGo_step_nonobj g k v rest pre sep items hv'
          rw [hstep]
          rw [ih rest pre sep _ key (by omega) hmem.2]
          apply lookup_dinsert_ne
          rw [flatPathsV_nonobj _ _ _ hv'] at hmem
          intro he
          exact hmem.1 (by rw [he]; simp)

theorem flattenGo_lookup_arr :
    ∀ (f : Nat), ∀ (record : List (String × JVal)) (pre sep : String)
      (items : List (String × JVal)) (key : String) (xs : List JVal),
    jnodesObj record ≤ f →
    (flatPathsObj record pre sep).Nodup →
    (key, JVal.arr xs) ∈ record →
    List.lookup (if pre = "" then key else pre ++ sep ++ key)
      (flattenGo f record pre sep items) = some (.str (dumps (.arr xs))) := by
  intro f
  induction f with
  | zero =>
    intro record pre sep items key xs hfuel _ hm
    cases record with
    | nil => simp at hm
    | cons kv rest =>
      rw [jnodesObj] at hfuel
      have := jnodes_pos kv.2
      omega
  | succ g ih =>
    intro record pre sep items key xs hfuel hnd hm
    cases record with
    | nil => simp at hm
    | cons kv rest =>
      cases kv with
      | mk k v =>
        rw [jnodesObj] at hfuel
        have hvpos := jnodes_pos v
        rw [flatPathsObj] at hnd
        rcases List.mem_cons.mp hm with heq | hmem
        · injection heq with h1 h2
          subst h1
          subst h2
          rw [flattenGo_step_arr]
          rw [flatPathsV_nonobj _ _ _ (fun sub h => by cases h)] at hnd
          have hnotin : (if pre = "" then key else pre ++ sep ++ key) ∉
              flatPathsObj rest pre sep := by
            simp only [List.singleton_append, List.nodup_cons] at hnd
            exact hnd.1
          rw [flattenGo_lookup_absent g rest pre sep _ _
            (by rw [jnodes] at hfuel; omega) hnotin]
          exact lookup_dinsert_self _ _ _
        · have hrest_nd : (flatPathsObj rest pre sep).Nodup :=
            (List.nodup_append.mp hnd).2.1
          by_cases hv : ∃ sub, v = .obj sub
          · obtain ⟨sub, rfl⟩ := hv
            rw [flattenGo_step_obj]
            exact ih rest pre sep _ key xs (by rw [jnodes] at hfuel; omega)
              hrest_nd hmem
          · have hv' : ∀ sub, v ≠ .obj sub := by push_neg at hv; exact hv
            obtain ⟨w, hstep⟩ := flattenGo_step_nonobj g k v rest pre sep items hv'
            rw [hstep]
            exact ih rest pre sep _ key xs (by omega) hrest_nd hmem

/-- Counterexample to claim C6 as stated: in the record
`{"a.x": [1], "a": {"x": "five"}}` the key `"a.x"` holds a list, yet the
flattened record maps the corresponding dotted key `"a.x"` to `"five"`
(overwritten by the nested object's path), which does not JSON-parse back to
the original list. -/
theorem C6_counterexample :
    ("a.x", JVal.arr [JVal.num 1]) ∈
      [("a.x", JVal.arr [JVal.num 1]), ("a", JVal.obj [("x", JVal.str "five")])] ∧
    List.lookup "a.x" (flatten_record
      [("a.x", JVal.arr [JVal.num 1]), ("a", JVal.obj [("x", JVal.str "five")])]) =
      some (JVal.str "five") ∧
    parseJson "five" ≠ some (JVal.arr [JVal.num 1]) := by
  refine ⟨by simp, by decide, by decide⟩

/-- Claim C6 (amended): when the dotted key paths of the record are pairwise
distinct (no collisions such as a literal `"a.x"` key next to a nested
`{"a": {"x": ...}}`), every key holding a list value flattens to that key
bound to the JSON serialization of the list, and parsing that string
reconstructs the list exactly. -/
theorem C6_flatten_list_roundtrip (record : List (String × JVal)) (key : String)
    (xs : List JVal)
    (hm : (key, JVal.arr xs) ∈ record)
    (hnd : (flatPathsObj record ("") (".")).Nodup) :
    List.lookup key (flatten_record record) = some (.str (dumps (.arr xs))) ∧
    parseJson (dumps (.arr xs)) = some (.arr xs) := by
  constructor
  · have h := flattenGo_lookup_arr (jnodesObj record) record ("") (".") [] key xs
      (Nat.le_refl _) hnd hm
    rw [if_pos rfl] at h
    exact h
  · exact parse_dumps (.arr xs)

/-- Witness for the amended C6 at a concrete record. -/
theorem C6_witness :
    List.lookup "k" (flatten_record
      [("k", JVal.arr [JVal.num 3, JVal.null]), ("m", JVal.num 2)]) =
      some (JVal.str (dumps (JVal.arr [JVal.num 3, JVal.null]))) ∧
    parseJson (dumps (JVal.arr [JVal.num 3, JVal.null])) =
      some (JVal.arr [JVal.num 3, JVal.null]) :=
  C6_flatten_list_roundtrip
    [("k", JVal.arr [JVal.num 3, JVal.null]), ("m", JVal.num 2)] "k"
    [JVal.num 3, JVal.null] (by simp) (by decide)
